import Mathlib

/-!
Verification development for the BritzoneBot breakout-room subsystem.

This file gives a shallow embedding of the persistent operation store
(`src/modules/breakout/state/state.ts` and the legacy `StateManager` class),
the session registry (`state/session.ts`), the distribution planner
(`utils/distribution.ts`), the timer monitor (`services/timer.ts` together
with the timer subcommand of `commands/main/breakout.ts`) and the three
checkpointed operation executors (`operations/create.ts`,
`operations/distribute.ts`, `operations/DistributeOperation.ts`,
`operations/end.ts`), and proves properties about them.

JavaScript objects used as string-keyed maps are modelled as association
lists where setting an existing key replaces the value in place (preserving
key order, as JS does) and setting a new key appends it.  `Date.now()` and
the randomness source are passed in as explicit parameters.  External
platform calls (channel creation/deletion, member moves, message sends) are
modelled by explicit effect traces and success oracles; persistence to disk
has no in-memory effect and is omitted (the in-memory map is canonical).
-/

namespace Britzone

/-! ## Association lists (JS objects used as maps) -/

/-- First value bound to key `k`, like JS property read. -/
def alookup {κ : Type} [DecidableEq κ] {α : Type} (k : κ) : List (κ × α) → Option α
  | [] => none
  | (k', v) :: rest => if k' = k then some v else alookup k rest

/-- JS property write: replace in place if the key exists, else append. -/
def aupsert {κ : Type} [DecidableEq κ] {α : Type} (k : κ) (v : α) : List (κ × α) → List (κ × α)
  | [] => [(k, v)]
  | (k', v') :: rest => if k' = k then (k, v) :: rest else (k', v') :: aupsert k v rest

/-- JS `delete` on a property. -/
def aerase {κ : Type} [DecidableEq κ] {α : Type} (k : κ) : List (κ × α) → List (κ × α)
  | [] => []
  | (k', v') :: rest => if k' = k then rest else (k', v') :: aerase k rest

/-! ## Data model (`state/state.ts`) -/

/-- The operation-specific payload fields that the executors store on a step
(the TS code uses an open `[key: string]: any` record; the actually used
fields across the codebase are exactly these). -/
structure StepData where
  channelId : Option String := none
  roomIds : Option (List String) := none
  movedCount : Option Nat := none
  skipped : Option Bool := none
  successful : Option Nat := none
  failed : Option Nat := none
  deriving Repr, DecidableEq

/-- `OperationStep` from `state.ts`: `{ completed, timestamp, ...data }`. -/
structure OperationStep where
  completed : Bool
  timestamp : Nat
  data : StepData
  deriving Repr, DecidableEq

/-- `OperationProgress` from `state.ts`. -/
structure OperationProgress where
  started : Bool
  completed : Bool
  steps : List (String × OperationStep)
  startTime : Nat
  completedTime : Option Nat := none
  deriving Repr, DecidableEq

/-- The operation-specific `params` snapshot (open record in TS; the fields
used by the three executors are exactly these). -/
structure OperationParams where
  numRooms : Option Nat := none
  mainRoomId : Option String := none
  distribution : Option (List (String × List String)) := none
  roomIds : Option (List String) := none
  deriving Repr, DecidableEq

/-- `CurrentOperation` from `state.ts`. -/
structure CurrentOperation where
  type : String
  params : OperationParams
  progress : OperationProgress
  deriving Repr, DecidableEq

/-- `GuildState` from `state.ts` (both fields optional in TS). -/
structure GuildState where
  currentOperation : Option CurrentOperation := none
  history : Option (List CurrentOperation) := none
  deriving Repr, DecidableEq

/-- `TimerData` from `state.ts`.  `totalMinutes` is an `Int` so that the
JS expression `minutes - 5` keeps its sign. -/
structure TimerData where
  totalMinutes : Int
  startTime : Nat
  guildId : String
  breakoutRooms : List String
  fiveMinSent : Bool
  deriving Repr, DecidableEq

/-- One value of the store map `Record<string, GuildState | TimerData>`:
guild-state records live under the guild id, timer records under the
distinctly prefixed key `"timer_" ++ guildId`, so the two kinds never share
a key. -/
inductive Entry where
  | guild (g : GuildState)
  | timer (t : TimerData)
  deriving Repr, DecidableEq

/-- The in-memory state map (canonical store; disk is only a mirror). -/
abbrev Store := List (String × Entry)

/-- The TS read `inMemoryState[guildId] as GuildState | undefined`.  A timer
record read through the cast has no `currentOperation`/`history` property,
so it reads as an empty `GuildState` (this corner is unreachable because
timer keys are prefixed). -/
def getGuildState (st : Store) (guildId : String) : Option GuildState :=
  match alookup guildId st with
  | none => none
  | some (.guild g) => some g
  | some (.timer _) => some {}

/-- `startOperation` from `state.ts`: unconditionally overwrites the current
operation with a fresh record (history untouched). -/
def startOperation (st : Store) (guildId operationType : String) (params : OperationParams)
    (now : Nat) : Store :=
  let g := (getGuildState st guildId).getD {}
  let freshOp : CurrentOperation :=
    { type := operationType
      params := params
      progress :=
        { started := true
          completed := false
          steps := []
          startTime := now } }
  aupsert guildId (.guild { g with currentOperation := some freshOp }) st

/-- `updateProgress` from `state.ts`: fails (`false`, no change) if no
operation is in progress, otherwise upserts the step
`{ completed: true, timestamp: now, ...data }`. -/
def updateProgress (st : Store) (guildId step : String) (data : StepData) (now : Nat) :
    Store × Bool :=
  match getGuildState st guildId with
  | none => (st, false)
  | some g =>
    match g.currentOperation with
    | none => (st, false)
    | some op =>
      let newStep : OperationStep := { completed := true, timestamp := now, data := data }
      let op' := { op with progress :=
        { op.progress with steps := aupsert step newStep op.progress.steps } }
      (aupsert guildId (.guild { g with currentOperation := some op' }) st, true)

/-- `HISTORY_MAX` from `state.ts`. -/
def HISTORY_MAX : Nat := 50

/-- `history.slice(-n)` on a JS array. -/
def sliceLast {α : Type} (n : Nat) (l : List α) : List α :=
  l.drop (l.length - n)

/-- `completeOperation` from `state.ts`: marks completed, timestamps,
pushes to history, caps history to the last `HISTORY_MAX` entries, and
clears the current operation.  A guild with no current operation is left
untouched. -/
def completeOperation (st : Store) (guildId : String) (now : Nat) : Store :=
  match getGuildState st guildId with
  | none => st
  | some g =>
    match g.currentOperation with
    | none => st
    | some op =>
      let op' := { op with progress :=
        { op.progress with completed := true, completedTime := some now } }
      let hist := g.history.getD [] ++ [op']
      let hist' := if hist.length > HISTORY_MAX then sliceLast HISTORY_MAX hist else hist
      aupsert guildId (.guild { currentOperation := none, history := some hist' }) st

/-- `StateManager.completeOperation` from the legacy class in
`state/StateManager.ts` (also embedded in `state/session.ts`): identical to
`completeOperation` except that it pushes to history WITHOUT capping. -/
def stateManagerCompleteOperation (st : Store) (guildId : String) (now : Nat) : Store :=
  match getGuildState st guildId with
  | none => st
  | some g =>
    match g.currentOperation with
    | none => st
    | some op =>
      let op' := { op with progress :=
        { op.progress with completed := true, completedTime := some now } }
      let hist := g.history.getD [] ++ [op']
      aupsert guildId (.guild { currentOperation := none, history := some hist }) st

/-- `hasOperationInProgress` from `state.ts`. -/
def hasOperationInProgress (st : Store) (guildId : String) : Bool :=
  match getGuildState st guildId with
  | none => false
  | some g =>
    match g.currentOperation with
    | none => false
    | some op => !op.progress.completed

/-- `getCurrentOperation` from `state.ts`. -/
def getCurrentOperation (st : Store) (guildId : String) : Option CurrentOperation :=
  (getGuildState st guildId).bind (·.currentOperation)

/-- `getCompletedSteps` from `state.ts` (`{}` if no current operation). -/
def getCompletedSteps (st : Store) (guildId : String) : List (String × OperationStep) :=
  match getCurrentOperation st guildId with
  | none => []
  | some op => op.progress.steps

/-- `setTimerData` from `state.ts`: stores under the prefixed key. -/
def setTimerData (st : Store) (guildId : String) (t : TimerData) : Store :=
  aupsert ("timer_" ++ guildId) (.timer t) st

/-- `getTimerData` from `state.ts` (`null` when absent; a guild record under
a timer key cannot arise because timer keys are prefixed). -/
def getTimerData (st : Store) (guildId : String) : Option TimerData :=
  match alookup ("timer_" ++ guildId) st with
  | some (.timer t) => some t
  | _ => none

/-- `clearTimerData` from `state.ts`. -/
def clearTimerData (st : Store) (guildId : String) : Store :=
  aerase ("timer_" ++ guildId) st

/-! ## Channels and the guild environment (external platform state) -/

/-- The channel kinds the breakout code distinguishes
(`ChannelType.GuildVoice`, `ChannelType.GuildText`, everything else). -/
inductive ChanType where
  | voice
  | text
  | other
  deriving Repr, DecidableEq

/-- A channel as seen through `guild.channels.cache`: id, name, type and the
ids of the members currently connected to it. -/
structure Channel where
  id : String
  name : String
  ctype : ChanType
  members : List String
  deriving Repr, DecidableEq

/-- Used only for the unreachable out-of-bounds branch of a checked index. -/
def dummyChannel : Channel := { id := "", name := "", ctype := .other, members := [] }

/-- The live guild state the executors consult:
`guild.channels.cache` and the guild member list (cache + fetch). -/
structure GuildEnv where
  guildId : String
  channels : List Channel
  memberIds : List String
  deriving Repr, DecidableEq

/-- `guild.channels.cache.get(id)`. -/
def cacheGet (env : GuildEnv) (id : String) : Option Channel :=
  env.channels.find? (fun c => c.id = id)

/-! ## Session registry (`state/session.ts`) -/

/-- `BreakoutSession` from `session.ts`. -/
structure BreakoutSession where
  rooms : Option (List Channel) := none
  mainRoom : Option Channel := none
  deriving Repr, DecidableEq

/-- The in-memory session map (transient, lost on restart). -/
abbrev Sessions := List (String × BreakoutSession)

/-- `storeRooms` from `session.ts`. -/
def storeRooms (ss : Sessions) (guildId : String) (rooms : List Channel) : Sessions :=
  let s := (alookup guildId ss).getD {}
  aupsert guildId { s with rooms := some rooms } ss

/-- `setMainRoom` from `session.ts`. -/
def setMainRoom (ss : Sessions) (guildId : String) (mainRoom : Channel) : Sessions :=
  let s := (alookup guildId ss).getD {}
  aupsert guildId { s with mainRoom := some mainRoom } ss

/-- `getRooms` from `session.ts` (empty list when absent). -/
def getRooms (ss : Sessions) (guildId : String) : List Channel :=
  ((alookup guildId ss).bind (·.rooms)).getD []

/-- `getMainRoom` from `session.ts`. -/
def getMainRoom (ss : Sessions) (guildId : String) : Option Channel :=
  (alookup guildId ss).bind (·.mainRoom)

/-- `clearSession` from `session.ts`. -/
def clearSession (ss : Sessions) (guildId : String) : Sessions :=
  aerase guildId ss

/-! ## Distribution planner (`utils/distribution.ts`)

The Fisher-Yates shuffle draws `j = randomInt(0, i + 1)` at each step; the
randomness source is modelled as an oracle `rand : Nat → Nat` giving the
draw for each loop index. -/

/-- The JS swap `[a[i], a[j]] = [a[j], a[i]]` (identity when an index is out
of range, which the shuffle never produces). -/
def listSwap {α : Type} (l : List α) (i j : Nat) : List α :=
  match l.get? i, l.get? j with
  | some a, some b => (l.set i b).set j a
  | _, _ => l

/-- The shuffle loop, counting `i` down from `l.length - 1` to `1`. -/
def fyLoop {α : Type} (rand : Nat → Nat) : Nat → List α → List α
  | 0, l => l
  | i + 1, l => fyLoop rand i (listSwap l (i + 1) (rand (i + 1)))

/-- The full Fisher-Yates shuffle from `distributeUsers`. -/
def fisherYates {α : Type} (l : List α) (rand : Nat → Nat) : List α :=
  fyLoop rand (l.length - 1) l


/-- `breakoutRooms.forEach(room => distribution[room.id] = [])`. -/
def initBuckets (rooms : List Channel) : List (String × List String) :=
  rooms.foldl (fun acc room => aupsert room.id ([] : List String) acc) []

/-- `distribution[roomId].push(user)` (no-op on a missing key, which cannot
happen because every assigned room id was initialised). -/
def pushBucket (k : String) (v : String) :
    List (String × List String) → List (String × List String)
  | [] => []
  | (k', vs) :: rest =>
    if k' = k then (k', vs ++ [v]) :: rest else (k', vs) :: pushBucket k v rest

/-- `breakoutRooms[index % breakoutRooms.length].id`. -/
def roomIdAt (rooms : List Channel) (i : Nat) : String :=
  (rooms.getD i dummyChannel).id

/-- `userArray.forEach((user, index) => ...)`: round-robin assignment of the
shuffled users to the room buckets. -/
def assignUsers (rooms : List Channel) :
    Nat → List String → List (String × List String) → List (String × List String)
  | _, [], buckets => buckets
  | index, user :: rest, buckets =>
    assignUsers rooms (index + 1) rest
      (pushBucket (roomIdAt rooms (index % rooms.length)) user buckets)

/-- `distributeUsers` from `utils/distribution.ts` (pure value level; the
heap-level version modelling array mutation is `distributeUsersRef`).
Members are identified by their ids.  Throwing is modelled by `Except`. -/
def distributeUsers (users : List String) (rooms : List Channel) (rand : Nat → Nat) :
    Except String (List (String × List String)) :=
  if rooms.length = 0 then .error "No breakout rooms provided."
  else
    let userArray := users
    let shuffled := fisherYates userArray rand
    .ok (assignUsers rooms 0 shuffled (initBuckets rooms))

/-- The participants a round-robin assignment starting at index `i` puts
into bucket `k` of `n`: the elements whose index is congruent to `k`
modulo `n`, in order.  Used to state the round-robin property. -/
def selectIdx (n k : Nat) : Nat → List String → List String
  | _, [] => []
  | i, u :: us => (if i % n = k then [u] else []) ++ selectIdx n k (i + 1) us

/-! ### Heap-level model for the mutation claim

JS arrays are mutable references.  To state "the input array is not
mutated" we model a heap of arrays; `[...users]` allocates a fresh array
and the in-place shuffle writes only to that fresh array. -/

structure Heap where
  arrays : List (Nat × List String)
  next : Nat
  deriving Repr, DecidableEq

def readArr (h : Heap) (r : Nat) : List String :=
  (alookup r h.arrays).getD []

def writeArr (h : Heap) (r : Nat) (xs : List String) : Heap :=
  { h with arrays := aupsert r xs h.arrays }

def alloc (h : Heap) (xs : List String) : Nat × Heap :=
  (h.next, { arrays := aupsert h.next xs h.arrays, next := h.next + 1 })

/-- `distributeUsers` with the caller's array passed by reference:
`const userArray = [...users]` allocates a copy, the Fisher-Yates loop
mutates only the copy, and the assignment loop reads the copy. -/
def distributeUsersRef (h : Heap) (usersRef : Nat) (rooms : List Channel)
    (rand : Nat → Nat) : Except String (List (String × List String)) × Heap :=
  if rooms.length = 0 then (.error "No breakout rooms provided.", h)
  else
    let copy := alloc h (readArr h usersRef)
    let copyRef := copy.1
    let h1 := copy.2
    let h2 := writeArr h1 copyRef (fisherYates (readArr h1 copyRef) rand)
    (.ok (assignUsers rooms 0 (readArr h2 copyRef) (initBuckets rooms)), h2)

/-! ## Timer monitor (`services/timer.ts` and the timer subcommand) -/

/-- `Math.ceil(a / b)` on integers, for `b > 0`. -/
def jsCeilDiv (a b : Int) : Int := -(Int.ediv (-a) b)

/-- The `TimerData` record built by `handleTimerCommand` in
`commands/main/breakout.ts`:
`fiveMinSent` is initialised to `minutes - 5 <= 0`. -/
def handleTimerData (minutes : Int) (now : Nat) (guildId : String)
    (breakoutRooms : List Channel) : TimerData :=
  let fiveMinWarningTime := minutes - 5
  { totalMinutes := minutes
    startTime := now
    guildId := guildId
    breakoutRooms := breakoutRooms.map (·.id)
    fiveMinSent := decide (fiveMinWarningTime ≤ 0) }

/-- `endTime = startTime + totalMinutes * 60 * 1000` captured by
`monitorBreakoutTimer` when the monitor starts. -/
def timerEndTime (t : TimerData) : Int := (t.startTime : Int) + t.totalMinutes * 60 * 1000

/-- The broadcasts a single `monitorTick` performs. -/
structure TickEffect where
  warningSent : Bool
  endSent : Bool
  deriving Repr, DecidableEq

/-- One `monitorTick` from `monitorBreakoutTimer`: reload the timer record
(absence stops the loop), send the 5-minute warning if due and not sent,
send the end broadcast and clear the record once time is up.  Returns the
effects, the store afterwards, and whether the loop reschedules itself. -/
def monitorTick (st : Store) (guildId : String) (endTime : Int) (now : Nat) :
    TickEffect × Store × Bool :=
  match getTimerData st guildId with
  | none => ({ warningSent := false, endSent := false }, st, false)
  | some timerState =>
    let minutesLeft : Int := jsCeilDiv (endTime - (now : Int)) (60 * 1000)
    let warn : Bool := decide (minutesLeft ≤ 5) && !timerState.fiveMinSent
    let st1 :=
      if warn then setTimerData st guildId { timerState with fiveMinSent := true } else st
    if (now : Int) ≥ endTime then
      ({ warningSent := warn, endSent := true }, clearTimerData st1 guildId, false)
    else
      ({ warningSent := warn, endSent := false }, st1, true)

/-- The self-rescheduling monitor loop, run at the given sequence of
wall-clock instants; stops early when a tick says not to reschedule.
Each executed tick is paired with its instant. -/
def runTicks (guildId : String) (endTime : Int) : Store → List Nat → List (Nat × TickEffect)
  | _, [] => []
  | st, now :: rest =>
    let r := monitorTick st guildId endTime now
    (now, r.1) :: (if r.2.2 then runTicks guildId endTime r.2.1 rest else [])

/-! ## Create executor (`operations/create.ts`, `services/room.ts`) -/

/-- The caller-facing result of every executor. -/
structure OperationResult where
  success : Bool
  message : String
  deriving Repr, DecidableEq

/-- Result of `hasExistingBreakoutRooms` in `services/room.ts`
(the source field `exists` is a Lean keyword, hence `existsFlag`). -/
structure ExistingRoomsResult where
  existsFlag : Bool
  rooms : List Channel
  deriving Repr, DecidableEq

/-- `String.startsWith`, computed structurally on the character lists so
that concrete instances evaluate. -/
def strStartsWith (s p : String) : Bool := p.data.isPrefixOf s.data

/-- Voice channels named with the breakout naming convention. -/
def patternRooms (env : GuildEnv) : List Channel :=
  env.channels.filter
    (fun c => decide (c.ctype = ChanType.voice) && strStartsWith c.name "breakout-room-")

/-- The pattern fallback at the end of `hasExistingBreakoutRooms`. -/
def patternFallback (ss : Sessions) (env : GuildEnv) : ExistingRoomsResult × Sessions :=
  let pr := patternRooms env
  if pr.length > 0 then ({ existsFlag := true, rooms := pr }, ss)
  else ({ existsFlag := false, rooms := [] }, ss)

/-- `hasExistingBreakoutRooms` from `services/room.ts`: session registry
first (dropping and re-syncing rooms that no longer exist in the guild),
then the naming-convention scan.  Returns the possibly re-synced session
map as well. -/
def hasExistingBreakoutRooms (ss : Sessions) (env : GuildEnv) :
    ExistingRoomsResult × Sessions :=
  let storedRooms := getRooms ss env.guildId
  if storedRooms.length > 0 then
    let existingRooms := storedRooms.filter (fun room => (cacheGet env room.id).isSome)
    let ss1 :=
      if existingRooms.length ≠ storedRooms.length then
        if existingRooms.length > 0 then storeRooms ss env.guildId existingRooms
        else clearSession ss env.guildId
      else ss
    if existingRooms.length > 0 then ({ existsFlag := true, rooms := existingRooms }, ss1)
    else patternFallback ss1 env
  else patternFallback ss env

/-- `deleteRoom` as its effect on the channel cache. -/
def deleteChannel (env : GuildEnv) (id : String) : GuildEnv :=
  { env with channels := env.channels.filter (fun c => decide (c.id ≠ id)) }

/-- Precondition-failure message of `executeCreate`. -/
def createExistsMessage (n : Nat) : String :=
  "There are already " ++ toString n ++
    " breakout rooms in this server. Use \x27/breakout create\x27 with the force flag set to true to replace them, or \x27/breakout end\x27 first to clean up existing rooms."

/-- Success message of `executeCreate`. -/
def createSuccessMessage (numRooms : Nat) (hasParent : Bool) : String :=
  "Successfully created " ++ toString numRooms ++ " breakout voice channels" ++
    (if hasParent then " in the same category" else "") ++ "!"

/-- Everything `executeCreate` produces: the result, the final store /
session / guild state, and the external side-effect traces (names of rooms
created on the platform, ids of rooms deleted by the force path). -/
structure CreateOutcome where
  result : OperationResult
  store : Store
  sessions : Sessions
  env : GuildEnv
  created : List String
  deletedRooms : List String
  deriving Repr, DecidableEq

/-- `for (let i = 1; i <= numRooms; i++)`. -/
def roomIndices (numRooms : Nat) : List Nat := List.range' 1 numRooms

/-- The checkpointed creation loop of `executeCreate`: a room index whose
step is recorded and whose channel can be re-resolved (stored id first,
name search as fallback) is skipped; otherwise the room is created
externally (fresh ids come from `freshIds` applied to a counter) and the
step recorded.  Accumulates `createdChannels` and the trace of external
creations. -/
def createLoop (guildId : String) (freshIds : Nat → String) (now : Nat) :
    List Nat → Store → GuildEnv → List Channel → List String → Nat →
    Store × GuildEnv × List Channel × List String × Nat
  | [], st, env, acc, trace, ctr => (st, env, acc, trace, ctr)
  | i :: rest, st, env, acc, trace, ctr =>
    let roomName := "breakout-room-" ++ toString i
    let stepKey := "create_room_" ++ toString i
    let steps := getCompletedSteps st guildId
    let skipChannel : Option Channel :=
      match alookup stepKey steps with
      | none => none
      | some stepRec =>
        match stepRec.data.channelId.bind (cacheGet env) with
        | some c => some c
        | none =>
          env.channels.find?
            (fun c => decide (c.name = roomName) && decide (c.ctype = ChanType.voice))
    match skipChannel with
    | some c => createLoop guildId freshIds now rest st env (acc ++ [c]) trace ctr
    | none =>
      let newChannel : Channel :=
        { id := freshIds ctr, name := roomName, ctype := .voice, members := [] }
      let env' := { env with channels := env.channels ++ [newChannel] }
      let st' := (updateProgress st guildId stepKey { channelId := some newChannel.id } now).1
      createLoop guildId freshIds now rest st' env' (acc ++ [newChannel])
        (trace ++ [roomName]) (ctr + 1)

/-- The body (the `try` block) of `executeCreate`: run the creation loop,
record `store_rooms`, store the rooms in the session registry, complete the
operation.  `createRoom` cannot fail in this model, so the `catch` branch
is unreachable. -/
def createBody (st : Store) (ss : Sessions) (env : GuildEnv) (numRooms : Nat)
    (now : Nat) (freshIds : Nat → String) (hasParent : Bool)
    (deletedRooms : List String) : CreateOutcome :=
  let guildId := env.guildId
  let r := createLoop guildId freshIds now (roomIndices numRooms) st env [] [] 0
  let st1 := r.1
  let env1 := r.2.1
  let createdChannels := r.2.2.1
  let trace := r.2.2.2.1
  let st2 := (updateProgress st1 guildId "store_rooms"
    { roomIds := some (createdChannels.map (·.id)) } now).1
  let ss1 := storeRooms ss guildId createdChannels
  let st3 := completeOperation st2 guildId now
  { result := { success := true, message := createSuccessMessage numRooms hasParent }
    store := st3
    sessions := ss1
    env := env1
    created := trace
    deletedRooms := deletedRooms }

/-- `executeCreate` from `operations/create.ts`: resume detection, the
existing-rooms precondition with force override (force deletes the existing
rooms and clears the session before starting the fresh operation record),
then the checkpointed creation loop. -/
def executeCreate (st : Store) (ss : Sessions) (env : GuildEnv) (numRooms : Nat)
    (force : Bool) (now : Nat) (freshIds : Nat → String) (hasParent : Bool) :
    CreateOutcome :=
  let guildId := env.guildId
  let currentOp := getCurrentOperation st guildId
  let isResuming : Bool :=
    match currentOp with
    | some op => decide (op.type = "create")
    | none => false
  if isResuming then
    createBody st ss env numRooms now freshIds hasParent []
  else
    let pr := hasExistingBreakoutRooms ss env
    let existingRooms := pr.1
    let ss1 := pr.2
    if existingRooms.existsFlag && !force then
      { result := { success := false
                    message := createExistsMessage existingRooms.rooms.length }
        store := st
        sessions := ss1
        env := env
        created := []
        deletedRooms := [] }
    else
      let cleanup :=
        if force && existingRooms.existsFlag then
          (existingRooms.rooms.foldl (fun e room => deleteChannel e room.id) env,
            clearSession ss1 guildId,
            existingRooms.rooms.map (·.id))
        else (env, ss1, [])
      let st1 := startOperation st guildId "create" { numRooms := some numRooms } now
      createBody st1 cleanup.2.1 cleanup.1 numRooms now freshIds hasParent cleanup.2.2

/-! ## Distribute executors (`operations/distribute.ts` as `part_009`, and the
legacy class `operations/DistributeOperation.ts`)

Members are identified by their ids (display tags are out of scope, so the
entries of `moveResults` are recorded as bare member ids).  The per-move
promises of the source are issued without an intervening `await`, so every
`steps[moveKey]` lookup reads the snapshot taken before the loop; the model
performs the moves (and their `.then` progress writes) in order, which
yields the same final store and the same set of attempted moves. -/

/-- `hasActiveDistribution` from `services/distribution.ts` (reads only the
session registry; occupancy comes from the stored room records). -/
def hasActiveDistribution (ss : Sessions) (guildId : String) : Bool :=
  match getMainRoom ss guildId with
  | none => false
  | some _ =>
    let rooms := getRooms ss guildId
    if rooms.length = 0 then false
    else rooms.any (fun room => decide (room.members.length > 0))

/-- The effect of moving a member on one cached channel: the member leaves
every channel and joins the target. -/
def moveChanFn (userId roomId : String) (c : Channel) : Channel :=
  if c.id = roomId then
    { c with members := c.members.filter (fun m => decide (m ≠ userId)) ++ [userId] }
  else
    { c with members := c.members.filter (fun m => decide (m ≠ userId)) }

/-- `moveUser`: the member leaves their current voice channel and joins the
target (no effect on the target when it is not in the cache). -/
def moveMember (env : GuildEnv) (userId roomId : String) : GuildEnv :=
  { env with channels := env.channels.map (moveChanFn userId roomId) }

/-- Per-move tallies (`moveResults` in the source). -/
structure MoveResults where
  success : List String
  failed : List String
  deriving Repr, DecidableEq

/-- Everything a distribute executor produces, including the trace of
`(userId, roomId)` moves actually issued to the platform. -/
structure DistributeOutcome where
  result : OperationResult
  moveResults : Option MoveResults
  store : Store
  sessions : Sessions
  env : GuildEnv
  movesAttempted : List (String × String)
  deriving Repr, DecidableEq

/-- The inner `for (const user of users)` loop of both distribute executors:
a pair whose step key is recorded is tallied as success without a platform
call; otherwise the move is issued (`moveOk` decides the platform outcome),
recorded on success, tallied as failed on failure. -/
def distUserLoop (guildId : String) (now : Nat) (moveOk : String → Bool)
    (steps : List (String × OperationStep)) (roomId : String) :
    List String → Store → GuildEnv → MoveResults → List (String × String) →
    Store × GuildEnv × MoveResults × List (String × String)
  | [], st, env, res, trace => (st, env, res, trace)
  | user :: rest, st, env, res, trace =>
    let moveKey := "move_user_" ++ user ++ "_to_" ++ roomId
    if (alookup moveKey steps).isSome then
      distUserLoop guildId now moveOk steps roomId rest st env
        { res with success := res.success ++ [user] } trace
    else
      let trace' := trace ++ [(user, roomId)]
      if moveOk user then
        let env' := moveMember env user roomId
        let st' := (updateProgress st guildId moveKey {} now).1
        distUserLoop guildId now moveOk steps roomId rest st' env'
          { res with success := res.success ++ [user] } trace'
      else
        distUserLoop guildId now moveOk steps roomId rest st env
          { res with failed := res.failed ++ [user] } trace'

/-- The outer `for (const [roomId, users] of Object.entries(...))` loop:
an unresolvable room id skips all its users. -/
def distRoomLoop (guildId : String) (now : Nat) (moveOk : String → Bool)
    (steps : List (String × OperationStep)) :
    List (String × List String) → Store → GuildEnv → MoveResults → List (String × String) →
    Store × GuildEnv × MoveResults × List (String × String)
  | [], st, env, res, trace => (st, env, res, trace)
  | (roomId, users) :: rest, st, env, res, trace =>
    match cacheGet env roomId with
    | none => distRoomLoop guildId now moveOk steps rest st env res trace
    | some _ =>
      let r := distUserLoop guildId now moveOk steps roomId users st env res trace
      distRoomLoop guildId now moveOk steps rest r.1 r.2.1 r.2.2.1 r.2.2.2

/-- The shared `try` body of both distribute executors: main-room
bookkeeping, the move loops over the active plan, the
`distribution_complete` tally step, and completion. -/
def distBody (st : Store) (ss : Sessions) (env : GuildEnv) (mainRoom : Channel)
    (activeDistribution : List (String × List String)) (moveOk : String → Bool)
    (now : Nat) : DistributeOutcome :=
  let guildId := env.guildId
  let steps := getCompletedSteps st guildId
  let ss1 := setMainRoom ss guildId mainRoom
  let st1 :=
    if (alookup "set_main_room" steps).isSome then st
    else (updateProgress st guildId "set_main_room" {} now).1
  let r := distRoomLoop guildId now moveOk steps activeDistribution st1 env ⟨[], []⟩ []
  let res := r.2.2.1
  let st2 := (updateProgress r.1 guildId "distribution_complete"
    { successful := some res.success.length, failed := some res.failed.length } now).1
  let st3 := completeOperation st2 guildId now
  { result := { success := true, message := "Distribution completed successfully" }
    moveResults := some res
    store := st3
    sessions := ss1
    env := r.2.1
    movesAttempted := r.2.2.2 }

/-- `guild.members.cache.get(userId)` followed by
`guild.members.fetch(userId)`: resolves iff the user is still a guild
member (the fetch of a departed member throws and the executor skips). -/
def memberStillInGuild (env : GuildEnv) (userId : String) : Bool :=
  env.memberIds.contains userId

/-- The resume-path plan reconstruction of `executeDistribute`
(`part_009`): persisted room id to participant-id lists, re-resolved
against the live member list, departed participants skipped. -/
def reconstructDistribution (env : GuildEnv) (storedPlan : List (String × List String)) :
    List (String × List String) :=
  storedPlan.map (fun p => (p.1, p.2.filter (fun uid => memberStillInGuild env uid)))

/-- Precondition-failure message of both distribute executors. -/
def distActiveMessage : String :=
  "Users are already distributed to breakout rooms. Use \x27/breakout distribute\x27 with the force flag set to true to redistribute, or use \x27/breakout end\x27 first to end the current session."

/-- `executeDistribute` from `operations/distribute.ts` (`part_009`): on
resume the active plan is reconstructed from `params.distribution`; on a
fresh run the precondition is checked, the plan persisted as ids, and the
operation started. -/
def executeDistribute (st : Store) (ss : Sessions) (env : GuildEnv) (mainRoom : Channel)
    (distribution : List (String × List String)) (force : Bool)
    (moveOk : String → Bool) (now : Nat) : DistributeOutcome :=
  let guildId := env.guildId
  let currentOp := getCurrentOperation st guildId
  let isResuming : Bool :=
    match currentOp with
    | some op => decide (op.type = "distribute")
    | none => false
  if isResuming then
    let activeDistribution :=
      match currentOp.bind (fun op => op.params.distribution) with
      | some storedPlan => reconstructDistribution env storedPlan
      | none => distribution
    distBody st ss env mainRoom activeDistribution moveOk now
  else
    if hasActiveDistribution ss guildId && !force then
      { result := { success := false, message := distActiveMessage }
        moveResults := none
        store := st
        sessions := ss
        env := env
        movesAttempted := [] }
    else
      let st1 := startOperation st guildId "distribute"
        { mainRoomId := some mainRoom.id, distribution := some distribution } now
      distBody st1 ss env mainRoom distribution moveOk now

/-- `DistributeOperation.execute` from the legacy class
`operations/DistributeOperation.ts`: identical to `executeDistribute`
except that the resume path performs NO reconstruction — the loop runs over
the caller-supplied fresh `distribution` argument. -/
def distributeOperationExecute (st : Store) (ss : Sessions) (env : GuildEnv)
    (mainRoom : Channel) (distribution : List (String × List String)) (force : Bool)
    (moveOk : String → Bool) (now : Nat) : DistributeOutcome :=
  let guildId := env.guildId
  let currentOp := getCurrentOperation st guildId
  let isResuming : Bool :=
    match currentOp with
    | some op => decide (op.type = "distribute")
    | none => false
  if isResuming then
    distBody st ss env mainRoom distribution moveOk now
  else
    if hasActiveDistribution ss guildId && !force then
      { result := { success := false, message := distActiveMessage }
        moveResults := none
        store := st
        sessions := ss
        env := env
        movesAttempted := [] }
    else
      let st1 := startOperation st guildId "distribute"
        { mainRoomId := some mainRoom.id, distribution := some distribution } now
      distBody st1 ss env mainRoom distribution moveOk now

/-! ## End executor (`operations/end.ts`) -/

def endNoRoomsMessage : String := "No breakout rooms found to end!"

def endNoUsersMessage : String :=
  "No users found in any breakout rooms. Use \x27/breakout end\x27 with the force flag set to true if you still want to end the session and delete the rooms."

def endSuccessMessage (totalMoved deletedRooms totalRooms : Nat) (mainName : String) : String :=
  "Successfully moved " ++ toString totalMoved ++ " member(s) back to " ++ mainName ++
    " and deleted " ++ toString deletedRooms ++ "/" ++ toString totalRooms ++
    " breakout room(s)!"

/-- The state threaded through the per-room loop of `executeEnd`, plus the
traces of move and delete calls issued to the platform. -/
structure RoomProcState where
  store : Store
  env : GuildEnv
  totalMoved : Nat
  deletedRooms : Nat
  movesIssued : List (String × String)
  deletesIssued : List String
  deriving Repr, DecidableEq

/-- The `for (const [memberId, member] of guildRoom.members)` loop of
`executeEnd`: members with a recorded step are tallied without a platform
call; otherwise the move is issued (`moveOk` decides success), recorded on
success, and a failed move is only logged.  Returns the updated store/env,
the room tally, the running total, and the move trace. -/
def endMemberLoop (guildId : String) (now : Nat) (moveOk : String → Bool)
    (steps : List (String × OperationStep)) (roomId : String) (mainChannel : Channel) :
    List String → Store → GuildEnv → Nat → Nat → List (String × String) →
    Store × GuildEnv × Nat × Nat × List (String × String)
  | [], st, env, roomMoved, totalMoved, mi => (st, env, roomMoved, totalMoved, mi)
  | memberId :: rest, st, env, roomMoved, totalMoved, mi =>
    let memberMovedKey := "member_moved_" ++ memberId ++ "_from_" ++ roomId
    if (alookup memberMovedKey steps).isSome then
      endMemberLoop guildId now moveOk steps roomId mainChannel rest st env
        (roomMoved + 1) (totalMoved + 1) mi
    else
      let mi' := mi ++ [(memberId, roomId)]
      if moveOk memberId then
        let env' := moveMember env memberId mainChannel.id
        let st' := (updateProgress st guildId memberMovedKey {} now).1
        endMemberLoop guildId now moveOk steps roomId mainChannel rest st' env'
          (roomMoved + 1) (totalMoved + 1) mi'
      else
        endMemberLoop guildId now moveOk steps roomId mainChannel rest st env
          roomMoved totalMoved mi'

/-- The per-room loop of `executeEnd`: an already-processed room
contributes its persisted `movedCount` and counts as deleted; a room
missing from the cache is recorded as skipped; otherwise members are moved
(`endMemberLoop`), the room is deleted unless its delete step is recorded
(`deleteOk` decides the platform outcome), and the room is marked processed
with its live moved count. -/
def endRoomLoop (guildId : String) (now : Nat) (moveOk deleteOk : String → Bool)
    (mainChannel : Channel) : List Channel → RoomProcState → RoomProcState
  | [], s => s
  | room :: rest, s =>
    let steps := getCompletedSteps s.store guildId
    let roomProcessedKey := "room_processed_" ++ room.id
    match alookup roomProcessedKey steps with
    | some processedData =>
      endRoomLoop guildId now moveOk deleteOk mainChannel rest
        { s with deletedRooms := s.deletedRooms + 1
                 totalMoved := s.totalMoved + processedData.data.movedCount.getD 0 }
    | none =>
      match cacheGet s.env room.id with
      | none =>
        let st1 := (updateProgress s.store guildId roomProcessedKey
          { skipped := some true, movedCount := some 0 } now).1
        endRoomLoop guildId now moveOk deleteOk mainChannel rest
          { s with store := st1, deletedRooms := s.deletedRooms + 1 }
      | some guildRoom =>
        let m := endMemberLoop guildId now moveOk steps room.id mainChannel
          guildRoom.members s.store s.env 0 s.totalMoved s.movesIssued
        let st1 := m.1
        let env1 := m.2.1
        let roomMoved := m.2.2.1
        let totalMoved1 := m.2.2.2.1
        let mi1 := m.2.2.2.2
        let roomDeletedKey := "room_deleted_" ++ room.id
        let d : Store × GuildEnv × Nat × List String :=
          if (alookup roomDeletedKey steps).isSome then
            (st1, env1, s.deletedRooms + 1, s.deletesIssued)
          else if deleteOk room.id then
            ((updateProgress st1 guildId roomDeletedKey {} now).1,
              deleteChannel env1 room.id, s.deletedRooms + 1,
              s.deletesIssued ++ [room.id])
          else
            (st1, env1, s.deletedRooms, s.deletesIssued ++ [room.id])
        let st2 := (updateProgress d.1 guildId roomProcessedKey
          { movedCount := some roomMoved } now).1
        endRoomLoop guildId now moveOk deleteOk mainChannel rest
          { store := st2
            env := d.2.1
            totalMoved := totalMoved1
            deletedRooms := d.2.2.1
            movesIssued := mi1
            deletesIssued := d.2.2.2 }

/-- Everything `executeEnd` produces. -/
structure EndOutcome where
  result : OperationResult
  store : Store
  sessions : Sessions
  env : GuildEnv
  movesIssued : List (String × String)
  deletesIssued : List String
  deriving Repr, DecidableEq

/-- The `try` body of `executeEnd`: the room loop, session clearing and
completion, with the success message built from the cumulative tallies. -/
def endBody (st : Store) (ss : Sessions) (env : GuildEnv) (mainChannel : Channel)
    (breakoutRooms : List Channel) (moveOk deleteOk : String → Bool) (now : Nat) :
    EndOutcome :=
  let guildId := env.guildId
  let totalRooms := breakoutRooms.length
  let s := endRoomLoop guildId now moveOk deleteOk mainChannel breakoutRooms
    { store := st, env := env, totalMoved := 0, deletedRooms := 0
      movesIssued := [], deletesIssued := [] }
  let st1 := (updateProgress s.store guildId "clear_session" {} now).1
  let ss1 := clearSession ss guildId
  let st2 := completeOperation st1 guildId now
  { result := { success := true
                message := endSuccessMessage s.totalMoved s.deletedRooms totalRooms
                  mainChannel.name }
    store := st2
    sessions := ss1
    env := s.env
    movesIssued := s.movesIssued
    deletesIssued := s.deletesIssued }

/-- The discovery path of `executeEnd`: the session registry's rooms, or
the naming-convention scan when the registry is empty. -/
def endDiscoveryRooms (ss : Sessions) (env : GuildEnv) : List Channel :=
  let rooms0 := getRooms ss env.guildId
  if rooms0.length = 0 then patternRooms env else rooms0

/-- `executeEnd` from `operations/end.ts`: on resume the room list is
re-resolved from the persisted `roomIds`; the discovery path (fresh run, or
a resume whose stored ids all went stale) uses the session registry, then
the naming convention, and checks the occupancy precondition with its force
override before starting a fresh operation record. -/
def executeEnd (st : Store) (ss : Sessions) (env : GuildEnv) (mainChannel : Channel)
    (force : Bool) (moveOk deleteOk : String → Bool) (now : Nat) : EndOutcome :=
  let guildId := env.guildId
  let currentOp := getCurrentOperation st guildId
  let isResuming : Bool :=
    match currentOp with
    | some op => decide (op.type = "end")
    | none => false
  let resumeRooms : List Channel :=
    if isResuming then
      match currentOp.bind (fun op => op.params.roomIds) with
      | some ids => ids.filterMap (cacheGet env)
      | none => []
    else []
  if isResuming && decide (resumeRooms ≠ []) then
    endBody st ss env mainChannel resumeRooms moveOk deleteOk now
  else
    let breakoutRooms := endDiscoveryRooms ss env
    if breakoutRooms.length = 0 then
      { result := { success := false, message := endNoRoomsMessage }
        store := st, sessions := ss, env := env, movesIssued := [], deletesIssued := [] }
    else
      let hasUsers := breakoutRooms.any (fun room =>
        match cacheGet env room.id with
        | some guildRoom => decide (guildRoom.members.length > 0)
        | none => false)
      if !hasUsers && !force then
        { result := { success := false, message := endNoUsersMessage }
          store := st, sessions := ss, env := env, movesIssued := [], deletesIssued := [] }
      else
        let st1 :=
          if !isResuming then
            startOperation st guildId "end"
              { mainRoomId := some mainChannel.id
                roomIds := some (breakoutRooms.map (·.id)) } now
          else st
        endBody st1 ss env mainChannel breakoutRooms moveOk deleteOk now

/-! ## Concrete scenarios used by the closed theorems -/

/-- An in-progress `distribute` operation whose persisted plan sends member
`A` to room `R` (no steps recorded yet). -/
def c1Op : CurrentOperation :=
  { type := "distribute"
    params := { mainRoomId := some "M", distribution := some [("R", ["A"])] }
    progress := { started := true, completed := false, steps := [], startTime := 0 } }

/-- A store holding `c1Op` for guild `g`. -/
def c1Store : Store := [("g", Entry.guild { currentOperation := some c1Op })]

/-- Guild with the main room `M` (holding `B`), breakout room `R` (holding
`A`), and both `A` and `B` still members of the guild. -/
def c1Env : GuildEnv :=
  { guildId := "g"
    channels :=
      [ { id := "M", name := "main", ctype := .voice, members := ["B"] }
      , { id := "R", name := "breakout-room-1", ctype := .voice, members := ["A"] } ]
    memberIds := ["A", "B"] }

def c1Main : Channel := { id := "M", name := "main", ctype := .voice, members := ["B"] }

def c2Ch1 : Channel := { id := "c1", name := "breakout-room-1", ctype := .voice, members := [] }

def c2Ch2 : Channel := { id := "c2", name := "breakout-room-2", ctype := .voice, members := [] }

def c2Step1 : OperationStep :=
  { completed := true, timestamp := 0, data := { channelId := some "c1" } }

def c2Step2 : OperationStep :=
  { completed := true, timestamp := 0, data := { channelId := some "c2" } }

/-- An interrupted 5-room create operation: rooms 1 and 2 already created. -/
def c2Op : CurrentOperation :=
  { type := "create"
    params := { numRooms := some 5 }
    progress :=
      { started := true
        completed := false
        steps := [("create_room_1", c2Step1), ("create_room_2", c2Step2)]
        startTime := 0 } }

def c2Store : Store := [("g", .guild { currentOperation := some c2Op })]

def c2Env : GuildEnv := { guildId := "g", channels := [c2Ch1, c2Ch2], memberIds := [] }

def c4RoomA : Channel := { id := "A", name := "breakout-room-1", ctype := .voice, members := [] }

def c4RoomB : Channel := { id := "B", name := "breakout-room-2", ctype := .voice, members := [] }

/-- `n` start/complete cycles for one guild, wall clock advancing by one per
cycle, finalised by the given completion function. -/
def completeCycles (completeFn : Store → String → Nat → Store) (guildId : String) :
    Nat → Nat → Store → Store
  | _, 0, st => st
  | t, n + 1, st =>
    completeCycles completeFn guildId (t + 1) n
      (completeFn (startOperation st guildId "create" {} t) guildId t)

/-- The start times of the guild's history entries, oldest first. -/
def historyStartTimes (st : Store) (guildId : String) : Option (List Nat) :=
  ((getGuildState st guildId).bind (·.history)).map (·.map (·.progress.startTime))

/-- Length of the guild's history list. -/
def historyLengthOf (st : Store) (guildId : String) : Nat :=
  match getGuildState st guildId with
  | some g => (g.history.getD []).length
  | none => 0

/-- The last (most recently completed) operation in the guild's history. -/
def lastHistory (st : Store) (guildId : String) : Option CurrentOperation :=
  ((getGuildState st guildId).bind (·.history)).bind (·.getLast?)

/-- Fresh-run environment for the end counterexample: main room `M` empty,
breakout room `R` holding `A` and `B`. -/
def c9FreshEnv : GuildEnv :=
  { guildId := "g"
    channels :=
      [ { id := "M", name := "main", ctype := .voice, members := [] }
      , { id := "R", name := "breakout-room-1", ctype := .voice, members := ["A", "B"] } ]
    memberIds := ["A", "B"] }

/-- Resumed-run environment: the prior attempt already moved `A` to `M`
(and crashed before recording `room_processed_R`), so `R` now holds only
`B`. -/
def c9ResumeEnv : GuildEnv :=
  { guildId := "g"
    channels :=
      [ { id := "M", name := "main", ctype := .voice, members := ["A"] }
      , { id := "R", name := "breakout-room-1", ctype := .voice, members := ["B"] } ]
    memberIds := ["A", "B"] }

/-- Store as persisted by the interrupted first attempt: an in-progress
`end` operation over room `R` with only `member_moved_A_from_R` recorded. -/
def c9ResumeStore : Store :=
  [("g", Entry.guild
    { currentOperation := some
        { type := "end"
          params := { mainRoomId := some "M", roomIds := some ["R"] }
          progress :=
            { started := true
              completed := false
              steps := [("member_moved_A_from_R",
                { completed := true, timestamp := 1, data := {} })]
              startTime := 0 } }
      history := none })]

def c9MainChannel : Channel := { id := "M", name := "main", ctype := .voice, members := [] }

/-- Resumed-run store for the cumulative-totals scenario: room `R1` was
processed by the first attempt (both its members moved, persisted
`movedCount` 2), room `R2` untouched. -/
def c9AmStore : Store :=
  [("g", Entry.guild
    { currentOperation := some
        { type := "end"
          params := { mainRoomId := some "M", roomIds := some ["R1", "R2"] }
          progress :=
            { started := true
              completed := false
              steps :=
                [ ("room_processed_R1",
                    { completed := true, timestamp := 1,
                      data := { movedCount := some 2 } }) ]
              startTime := 0 } }
      history := none })]

/-- Resumed-run environment for the cumulative-totals scenario: `R1` is
already empty (its members `A`, `B` are back in main), `R2` still holds
`C`. -/
def c9AmEnv : GuildEnv :=
  { guildId := "g"
    channels :=
      [ { id := "M", name := "main", ctype := .voice, members := ["A", "B"] }
      , { id := "R1", name := "breakout-room-1", ctype := .voice, members := [] }
      , { id := "R2", name := "breakout-room-2", ctype := .voice, members := ["C"] } ]
    memberIds := ["A", "B", "C"] }

/-- The room list the resumed run re-resolves from the persisted ids. -/
def c9AmRooms : List Channel :=
  [ { id := "R1", name := "breakout-room-1", ctype := .voice, members := [] }
  , { id := "R2", name := "breakout-room-2", ctype := .voice, members := ["C"] } ]

def c8EndRoom : Channel :=
  { id := "R", name := "breakout-room-1", ctype := .voice, members := [] }

/-- Guild with an empty main room and one empty breakout room: the end
precondition ("no users found") fails without force. -/
def c8EndEnv : GuildEnv :=
  { guildId := "g"
    channels := [{ id := "M", name := "main", ctype := .voice, members := [] }, c8EndRoom]
    memberIds := [] }

/-- The members of a room as the end loop sees them through the cache. -/
def liveMembers (env : GuildEnv) (room : Channel) : List String :=
  match cacheGet env room.id with
  | some guildRoom => guildRoom.members
  | none => []

/-- All step keys the end loop can read or write while processing a room
(given the reference environment). -/
def roomStepKeys (env : GuildEnv) (room : Channel) : List String :=
  ("room_processed_" ++ room.id) :: ("room_deleted_" ++ room.id) ::
    (liveMembers env room).map (fun m => "member_moved_" ++ m ++ "_from_" ++ room.id)

/-- The member predicate a room's live contribution counts: a recorded move
step or a fresh move that succeeds. -/
def memberCounted (steps : List (String × OperationStep)) (moveOk : String → Bool)
    (roomId m : String) : Bool :=
  (alookup ("member_moved_" ++ m ++ "_from_" ++ roomId) steps).isSome || moveOk m

/-- The moved-count contribution of one room to an `executeEnd` total,
computed against the pre-invocation store and environment: the persisted
`movedCount` payload for an already-processed room, the live count (members
with a recorded move step, plus members whose fresh move succeeds) for a
newly processed one. -/
def roomMovedContribution (steps : List (String × OperationStep)) (env : GuildEnv)
    (moveOk : String → Bool) (room : Channel) : Nat :=
  match alookup ("room_processed_" ++ room.id) steps with
  | some processedData => processedData.data.movedCount.getD 0
  | none =>
    match cacheGet env room.id with
    | none => 0
    | some guildRoom =>
      (guildRoom.members.filter (memberCounted steps moveOk room.id)).length

/-- The deleted-count contribution of one room: an already-processed or
vanished room counts as deleted; a live room counts when its delete step is
recorded or its fresh delete succeeds. -/
def roomDeletedContribution (steps : List (String × OperationStep)) (env : GuildEnv)
    (deleteOk : String → Bool) (room : Channel) : Nat :=
  match alookup ("room_processed_" ++ room.id) steps with
  | some _ => 1
  | none =>
    match cacheGet env room.id with
    | none => 1
    | some _ =>
      if (alookup ("room_deleted_" ++ room.id) steps).isSome then 1
      else if deleteOk room.id then 1 else 0

/-! ## Association list lemmas -/

@[simp] theorem alookup_nil {κ : Type} [DecidableEq κ] {α : Type} (k : κ) :
    alookup (α := α) k [] = none := rfl

@[simp] theorem alookup_cons {κ : Type} [DecidableEq κ] {α : Type} (k k' : κ) (v : α) (l : List (κ × α)) :
    alookup k ((k', v) :: l) = if k' = k then some v else alookup k l := rfl

@[simp] theorem alookup_aupsert_self {κ : Type} [DecidableEq κ] {α : Type} (k : κ) (v : α)
    (l : List (κ × α)) : alookup k (aupsert k v l) = some v := by
  induction l with
  | nil => simp [aupsert]
  | cons hd tl ih =>
    obtain ⟨k', v'⟩ := hd
    by_cases h : k' = k <;> simp [aupsert, h, ih]

@[simp] theorem alookup_aupsert_ne {κ : Type} [DecidableEq κ] {α : Type} {k k' : κ} (v : α)
    (l : List (κ × α)) (h : k' ≠ k) : alookup k (aupsert k' v l) = alookup k l := by
  induction l with
  | nil => simp [aupsert, h]
  | cons hd tl ih =>
    obtain ⟨k'', v''⟩ := hd
    by_cases h2 : k'' = k'
    · subst h2
      simp [aupsert, h]
    · by_cases h3 : k'' = k <;> simp [aupsert, h2, h3, ih, Ne.symm h]

theorem aupsert_aupsert_same {κ : Type} [DecidableEq κ] {α : Type} (k : κ) (v v' : α)
    (l : List (κ × α)) : aupsert k v' (aupsert k v l) = aupsert k v' l := by
  induction l with
  | nil => simp [aupsert]
  | cons hd tl ih =>
    obtain ⟨k'', v''⟩ := hd
    by_cases h : k'' = k <;> simp [aupsert, h, ih]

/-! ## Shuffle permutation lemmas -/

theorem set_get_self {α : Type} (l : List α) (i : Nat) (h : i < l.length) :
    l.set i (l.get ⟨i, h⟩) = l := by
  induction l generalizing i with
  | nil => simp at h
  | cons x xs ih =>
    cases i with
    | zero => simp
    | succ k => simpa [List.set] using ih k (by simpa using h)

theorem get_cons_set_perm {α : Type} (l : List α) (i : Nat) (a : α) (h : i < l.length) :
    (l.get ⟨i, h⟩ :: l.set i a).Perm (a :: l) := by
  induction l generalizing i with
  | nil => simp at h
  | cons x xs ih =>
    cases i with
    | zero => simpa using List.Perm.swap a x xs
    | succ k =>
      have hk : k < xs.length := by simpa using h
      have h1 : (xs.get ⟨k, hk⟩ :: x :: xs.set k a).Perm
          (x :: xs.get ⟨k, hk⟩ :: xs.set k a) := List.Perm.swap x _ _
      have h2 : (x :: xs.get ⟨k, hk⟩ :: xs.set k a).Perm (x :: a :: xs) :=
        (ih k hk).cons x
      have h3 : (x :: a :: xs).Perm (a :: x :: xs) := List.Perm.swap a x xs
      simpa [List.set] using (h1.trans h2).trans h3

theorem listSwap_perm {α : Type} (l : List α) (i j : Nat) : (listSwap l i j).Perm l := by
  unfold listSwap
  cases hi : l.get? i with
  | none => cases l.get? j <;> exact List.Perm.refl l
  | some a =>
    cases hj : l.get? j with
    | none => exact List.Perm.refl l
    | some b =>
      have hilt : i < l.length := List.get?_eq_some.mp hi |>.1
      have hjlt : j < l.length := List.get?_eq_some.mp hj |>.1
      have ha : l.get ⟨i, hilt⟩ = a := (List.get?_eq_some.mp hi).2
      have hb : l.get ⟨j, hjlt⟩ = b := (List.get?_eq_some.mp hj).2
      have hjlt' : j < (l.set i b).length := by simpa using hjlt
      have hgetj : (l.set i b).get ⟨j, hjlt'⟩ :: (l.set i b).set j a
          |>.Perm (a :: l.set i b) := get_cons_set_perm (l.set i b) j a hjlt'
      have hgeti : (l.get ⟨i, hilt⟩ :: l.set i b).Perm (b :: l) :=
        get_cons_set_perm l i b hilt
      by_cases hij : i = j
      · subst hij
        have hab : a = b := by rw [← ha, ← hb]
        subst hab
        show ((l.set i a).set i a).Perm l
        rw [List.set_set]
        rw [← ha, set_get_self l i hilt]
      · have hgj : (l.set i b).get ⟨j, hjlt'⟩ = l.get ⟨j, hjlt⟩ := by
          simp only [List.get_eq_getElem]
          exact List.getElem_set_of_ne hij b hjlt'
        rw [hgj, hb] at hgetj
        rw [ha] at hgeti
        exact (hgetj.trans hgeti).cons_inv

theorem fyLoop_perm {α : Type} (rand : Nat → Nat) (n : Nat) (l : List α) :
    (fyLoop rand n l).Perm l := by
  induction n generalizing l with
  | zero => exact List.Perm.refl l
  | succ k ih => exact (ih _).trans (listSwap_perm l (k + 1) (rand (k + 1)))

theorem fisherYates_perm {α : Type} (l : List α) (rand : Nat → Nat) :
    (fisherYates l rand).Perm l :=
  fyLoop_perm rand (l.length - 1) l

/-! ## Store lemmas -/

@[simp] theorem getGuildState_aupsert_guild (st : Store) (guildId : String) (g : GuildState) :
    getGuildState (aupsert guildId (.guild g) st) guildId = some g := by
  simp [getGuildState]

@[simp] theorem getTimerData_setTimerData (st : Store) (guildId : String) (t : TimerData) :
    getTimerData (setTimerData st guildId t) guildId = some t := by
  simp [getTimerData, setTimerData]

/-- `completeOperation` always leaves at most `HISTORY_MAX` history entries
behind (supporting invariant for the history-cap analysis). -/
theorem completeOperation_caps_history (st : Store) (guildId : String) (now : Nat) :
    historyLengthOf (completeOperation st guildId now) guildId ≤ HISTORY_MAX ∨
      completeOperation st guildId now = st := by
  cases hg : getGuildState st guildId with
  | none => right; simp [completeOperation, hg]
  | some g =>
    cases hop : g.currentOperation with
    | none => right; simp [completeOperation, hg, hop]
    | some op =>
      left
      simp only [completeOperation, hg, hop, historyLengthOf, getGuildState_aupsert_guild,
        Option.getD_some, sliceLast, HISTORY_MAX]
      split
      · simp only [List.length_drop]
        omega
      · next hle =>
        simp only [List.length_append, List.length_cons, List.length_nil] at hle ⊢
        omega

/-! ## Claim theorems -/

/-- C10: for every guild with no current operation in the store, calling
`completeOperation` is a no-op: it returns without error, appends nothing
to history, and leaves the entire store (this guild's and every other key)
unchanged. -/
theorem C10_completeOperation_noop (st : Store) (guildId : String) (now : Nat)
    (h : getCurrentOperation st guildId = none) :
    completeOperation st guildId now = st := by
  unfold getCurrentOperation at h
  cases hg : getGuildState st guildId with
  | none => simp [completeOperation, hg]
  | some g =>
    rw [hg] at h
    simp only [Option.some_bind] at h
    simp [completeOperation, hg, h]

theorem C10_completeOperation_noop_witness :
    getCurrentOperation
        [("g", Entry.guild {}), ("h", Entry.guild { history := some [] }),
          ("timer_g", Entry.timer
            { totalMinutes := 3, startTime := 0, guildId := "g",
              breakoutRooms := [], fiveMinSent := true })] "g" = none ∧
      completeOperation
        [("g", Entry.guild {}), ("h", Entry.guild { history := some [] }),
          ("timer_g", Entry.timer
            { totalMinutes := 3, startTime := 0, guildId := "g",
              breakoutRooms := [], fiveMinSent := true })] "g" 5 =
        [("g", Entry.guild {}), ("h", Entry.guild { history := some [] }),
          ("timer_g", Entry.timer
            { totalMinutes := 3, startTime := 0, guildId := "g",
              breakoutRooms := [], fiveMinSent := true })] :=
  ⟨rfl, C10_completeOperation_noop _ _ _ rfl⟩

/-- C6: after `startOperation`, two `updateProgress` calls with the same
step key leave exactly one entry for that key, carrying the latest payload
with `completed := true` and the latest timestamp; and a repeated
`updateProgress` with the same key and payload is absorbed by the later
call (the whole store is as if only the later call had happened). -/
theorem C6_updateProgress_idempotent_upsert
    (st : Store) (guildId operationType stepKey : String) (params : OperationParams)
    (d1 d2 : StepData) (t0 t1 t2 : Nat) :
    (getCompletedSteps
        ((updateProgress
          ((updateProgress (startOperation st guildId operationType params t0)
            guildId stepKey d1 t1).1)
          guildId stepKey d2 t2).1) guildId =
      [(stepKey, { completed := true, timestamp := t2, data := d2 })]) ∧
    (∀ (st' : Store) (k : String) (d : StepData) (u1 u2 : Nat),
      (updateProgress ((updateProgress st' guildId k d u1).1) guildId k d u2).1 =
        (updateProgress st' guildId k d u2).1) := by
  constructor
  · simp [startOperation, updateProgress, getCompletedSteps, getCurrentOperation, aupsert]
  · intro st' k d u1 u2
    cases hg : getGuildState st' guildId with
    | none => simp [updateProgress, hg]
    | some g =>
      cases hop : g.currentOperation with
      | none => simp [updateProgress, hg, hop]
      | some op =>
        simp [updateProgress, hg, hop, getGuildState_aupsert_guild, aupsert_aupsert_same]

theorem monitorTick_fiveMinSent (st : Store) (guildId : String) (endTime : Int) (now : Nat)
    (t : TimerData) (hget : getTimerData st guildId = some t)
    (hfive : t.fiveMinSent = true) :
    monitorTick st guildId endTime now =
      if (now : Int) ≥ endTime then
        ({ warningSent := false, endSent := true }, clearTimerData st guildId, false)
      else
        ({ warningSent := false, endSent := false }, st, true) := by
  simp [monitorTick, hget, hfive]

theorem runTicks_short_timer (guildId : String) (endTime : Int) :
    ∀ (times : List Nat) (st : Store),
      (∃ t, getTimerData st guildId = some t ∧ t.fiveMinSent = true) →
      ∀ p ∈ runTicks guildId endTime st times,
        p.2.warningSent = false ∧ (p.2.endSent = true ↔ endTime ≤ (p.1 : Int)) := by
  intro times
  induction times with
  | nil =>
    intro st _ p hp
    simp [runTicks] at hp
  | cons now rest ih =>
    rintro st ⟨t, hget, hfive⟩ p hp
    rw [runTicks, monitorTick_fiveMinSent st guildId endTime now t hget hfive] at hp
    by_cases hend : endTime ≤ (now : Int)
    · rw [if_pos (by exact hend)] at hp
      simp only [List.mem_cons] at hp
      rcases hp with rfl | hp
      · exact ⟨rfl, by simpa using hend⟩
      · simp at hp
    · rw [if_neg (by exact hend)] at hp
      simp only [List.mem_cons] at hp
      rcases hp with rfl | hp
      · refine ⟨rfl, ?_⟩
        simp only [Prod.snd]
        constructor
        · intro hc; cases hc
        · intro hc; exact absurd hc hend
      · simp only [if_true, show (true = true) = True by simp] at hp
        exact ih st ⟨t, hget, hfive⟩ p hp

set_option maxRecDepth 100000 in
/-- C3 (code bug): `StateManager.completeOperation` never caps the history,
so 60 start/complete cycles leave 60 entries; the functional
`completeOperation` of `state.ts` caps at 50, keeping the most recent
entries (start times 10..59) and clearing the current operation. -/
theorem C3_history_cap_bug :
    historyLengthOf (completeCycles stateManagerCompleteOperation "g" 0 60 []) "g" = 60 ∧
    historyLengthOf (completeCycles completeOperation "g" 0 60 []) "g" = 50 ∧
    historyStartTimes (completeCycles completeOperation "g" 0 60 []) "g" =
      some (List.range' 10 50) ∧
    getCurrentOperation (completeCycles completeOperation "g" 0 60 []) "g" = none := by
  refine ⟨by decide, by decide, by decide, by decide⟩

/-- C7: a timer set with `totalMinutes ≤ 5` is created with `fiveMinSent`
already `true` (since `totalMinutes - 5 ≤ 0`), so no tick of the monitor
loop ever sends the five-minute warning; the end broadcast is the only one,
firing exactly at a tick whose time has reached the timer's end time. -/
theorem C7_short_timer_no_five_minute_warning (st : Store) (guildId : String)
    (minutes : Int) (now0 : Nat) (rooms : List Channel) (times : List Nat)
    (hmin : minutes ≤ 5) :
    (handleTimerData minutes now0 guildId rooms).fiveMinSent = true ∧
    ∀ p ∈ runTicks guildId (timerEndTime (handleTimerData minutes now0 guildId rooms))
        (setTimerData st guildId (handleTimerData minutes now0 guildId rooms)) times,
      p.2.warningSent = false ∧
        (p.2.endSent = true ↔
          timerEndTime (handleTimerData minutes now0 guildId rooms) ≤ (p.1 : Int)) := by
  have hfive : (handleTimerData minutes now0 guildId rooms).fiveMinSent = true := by
    simp only [handleTimerData, decide_eq_true_eq]
    omega
  exact ⟨hfive, runTicks_short_timer guildId _ times _
    ⟨handleTimerData minutes now0 guildId rooms, getTimerData_setTimerData _ _ _, hfive⟩⟩

theorem C7_short_timer_no_five_minute_warning_witness :
    (3 : Int) ≤ 5 ∧
    ((handleTimerData 3 0 "g" [c1Main]).fiveMinSent = true ∧
      ∀ p ∈ runTicks "g" (timerEndTime (handleTimerData 3 0 "g" [c1Main]))
          (setTimerData [] "g" (handleTimerData 3 0 "g" [c1Main]))
          [0, 60000, 120000, 180000],
        p.2.warningSent = false ∧
          (p.2.endSent = true ↔
            timerEndTime (handleTimerData 3 0 "g" [c1Main]) ≤ (p.1 : Int))) :=
  ⟨by decide,
    C7_short_timer_no_five_minute_warning [] "g" 3 0 [c1Main] [0, 60000, 120000, 180000]
      (by decide)⟩

/-- C5: `distributeUsers` does not mutate its input array: the shuffle runs
only on the defensive copy, so after the call the caller's array holds the
same elements in the same order as before. -/
theorem C5_distributeUsers_input_unchanged (h : Heap) (usersRef : Nat)
    (rooms : List Channel) (rand : Nat → Nat) (hne : rooms ≠ [])
    (href : usersRef < h.next) :
    readArr (distributeUsersRef h usersRef rooms rand).2 usersRef = readArr h usersRef := by
  have hlen : ¬ rooms.length = 0 := fun hc => hne (List.length_eq_zero.mp hc)
  simp only [distributeUsersRef, if_neg hlen, alloc, writeArr, readArr]
  rw [alookup_aupsert_ne _ _ (by omega : h.next ≠ usersRef),
    alookup_aupsert_ne _ _ (by omega : h.next ≠ usersRef)]

theorem C5_distributeUsers_input_unchanged_witness :
    (([c1Main] : List Channel) ≠ [] ∧ 0 < 1) ∧
    readArr (distributeUsersRef ⟨[(0, ["a", "b", "c"])], 1⟩ 0 [c1Main] (fun _ => 0)).2 0 =
      readArr ⟨[(0, ["a", "b", "c"])], 1⟩ 0 :=
  ⟨⟨by decide, by decide⟩,
    C5_distributeUsers_input_unchanged ⟨[(0, ["a", "b", "c"])], 1⟩ 0 [c1Main]
      (fun _ => 0) (by decide) (by decide)⟩

/-! ## Distribution planner lemmas (for C4) -/

theorem aupsert_append_of_not_mem {κ : Type} [DecidableEq κ] {α : Type} (k : κ) (v : α)
    (l : List (κ × α)) (h : ∀ p ∈ l, p.1 ≠ k) : aupsert k v l = l ++ [(k, v)] := by
  induction l with
  | nil => rfl
  | cons hd tl ih =>
    obtain ⟨k', v'⟩ := hd
    have hk : k' ≠ k := h (k', v') (by simp)
    simp [aupsert, hk, ih (fun p hp => h p (by simp [hp]))]

theorem initBuckets_go (rooms : List Channel) :
    ∀ acc : List (String × List String),
      (rooms.map (·.id)).Nodup →
      (∀ r ∈ rooms, ∀ p ∈ acc, p.1 ≠ r.id) →
      rooms.foldl (fun a room => aupsert room.id ([] : List String) a) acc =
        acc ++ rooms.map (fun r => (r.id, [])) := by
  induction rooms with
  | nil => intro acc _ _; simp
  | cons r rest ih =>
    intro acc hnd hdisj
    have hnd' : (∀ x ∈ rest, ¬ x.id = r.id) ∧ (rest.map (·.id)).Nodup := by
      simpa using hnd
    simp only [List.foldl_cons]
    rw [aupsert_append_of_not_mem _ _ _ (fun p hp => hdisj r (by simp) p hp)]
    have hacc : ∀ r' ∈ rest, ∀ p ∈ acc ++ [(r.id, ([] : List String))], p.1 ≠ r'.id := by
      intro r' hr' p hp
      rcases List.mem_append.mp hp with hp1 | hp1
      · exact hdisj r' (by simp [hr']) p hp1
      · have hpe : p = (r.id, []) := by simpa using hp1
        subst hpe
        intro hc
        exact hnd'.1 r' hr' hc.symm
    rw [ih (acc ++ [(r.id, [])]) hnd'.2 hacc]
    simp

theorem initBuckets_eq (rooms : List Channel) (hnd : (rooms.map (·.id)).Nodup) :
    initBuckets rooms = rooms.map (fun r => (r.id, [])) := by
  simpa using initBuckets_go rooms [] hnd (by simp)

theorem pushBucket_keys (k : String) (v : String) (l : List (String × List String)) :
    (pushBucket k v l).map Prod.fst = l.map Prod.fst := by
  induction l with
  | nil => rfl
  | cons hd tl ih =>
    obtain ⟨k', vs⟩ := hd
    by_cases h : k' = k <;> simp [pushBucket, h, ih]

theorem alookup_pushBucket_self (k : String) (v : String)
    (l : List (String × List String)) (vs : List String)
    (h : alookup k l = some vs) : alookup k (pushBucket k v l) = some (vs ++ [v]) := by
  induction l with
  | nil => simp at h
  | cons hd tl ih =>
    obtain ⟨k', vs'⟩ := hd
    by_cases hk : k' = k
    · subst hk
      obtain rfl : vs' = vs := by simpa [alookup] using h
      simp [pushBucket, alookup]
    · simp only [alookup_cons, if_neg hk] at h
      simp [pushBucket, hk, alookup, ih h]

theorem alookup_pushBucket_ne (k k' : String) (v : String)
    (l : List (String × List String)) (h : k' ≠ k) :
    alookup k' (pushBucket k v l) = alookup k' l := by
  induction l with
  | nil => rfl
  | cons hd tl ih =>
    obtain ⟨k'', vs⟩ := hd
    by_cases hk : k'' = k
    · subst hk
      simp [pushBucket, alookup, Ne.symm h]
    · by_cases hk2 : k'' = k' <;> simp [pushBucket, hk, hk2, alookup, ih, h]

theorem flatten_pushBucket (k : String) (v : String) (l : List (String × List String))
    (h : k ∈ l.map Prod.fst) :
    ((pushBucket k v l).map Prod.snd).flatten.Perm (v :: (l.map Prod.snd).flatten) := by
  induction l with
  | nil => simp at h
  | cons hd tl ih =>
    obtain ⟨k', vs⟩ := hd
    by_cases hk : k' = k
    · subst hk
      simp [pushBucket, List.map_cons, List.flatten_cons]
    · simp only [List.map_cons] at h
      have hmem : k ∈ tl.map Prod.fst := by
        rcases List.mem_cons.mp h with h1 | h1
        · exact absurd h1.symm hk
        · exact h1
      simp only [pushBucket, if_neg hk, List.map_cons, List.flatten_cons]
      exact ((ih hmem).append_left vs).trans List.perm_middle

theorem flatten_map_pair_nil (l : List Channel) :
    ((l.map (fun r => (r.id, ([] : List String)))).map Prod.snd).flatten = [] := by
  induction l with
  | nil => rfl
  | cons c rest ih => simp [ih]

theorem roomIdAt_mem (rooms : List Channel) (k : Nat) (hk : k < rooms.length) :
    roomIdAt rooms k ∈ rooms.map (·.id) := by
  rw [roomIdAt, List.getD_eq_getElem rooms dummyChannel hk]
  exact List.mem_map_of_mem (·.id) (List.getElem_mem hk)

theorem roomIdAt_inj (rooms : List Channel) (hnd : (rooms.map (·.id)).Nodup)
    {a b : Nat} (ha : a < rooms.length) (hb : b < rooms.length)
    (h : roomIdAt rooms a = roomIdAt rooms b) : a = b := by
  have ha' : a < (rooms.map (·.id)).length := by simpa using ha
  have hb' : b < (rooms.map (·.id)).length := by simpa using hb
  rw [roomIdAt, roomIdAt, List.getD_eq_getElem rooms dummyChannel ha,
    List.getD_eq_getElem rooms dummyChannel hb] at h
  have h1 : (rooms.map (·.id))[a] = (rooms.map (·.id))[b] := by
    simpa using h
  exact (List.Nodup.getElem_inj_iff hnd).mp h1

theorem alookup_map_pair_nil (x : String) (l : List Channel) (h : x ∈ l.map (·.id)) :
    alookup x (l.map (fun r => (r.id, ([] : List String)))) = some [] := by
  induction l with
  | nil => simp at h
  | cons c rest ih =>
    by_cases hc : c.id = x
    · simp [alookup, hc]
    · simp only [List.map_cons] at h
      have : x ∈ rest.map (·.id) := by
        rcases List.mem_cons.mp h with h1 | h1
        · exact absurd h1.symm hc
        · exact h1
      simp [alookup, hc, ih this]

theorem assignUsers_join (rooms : List Channel) (hn : 0 < rooms.length) :
    ∀ (us : List String) (i : Nat) (buckets : List (String × List String)),
      (∀ j, j < rooms.length → roomIdAt rooms j ∈ buckets.map Prod.fst) →
      (((assignUsers rooms i us buckets).map Prod.snd).flatten).Perm
        (us ++ (buckets.map Prod.snd).flatten) := by
  intro us
  induction us with
  | nil =>
    intro i b _
    simp [assignUsers]
  | cons u rest ih =>
    intro i b hk
    have hmod : i % rooms.length < rooms.length := Nat.mod_lt _ hn
    have h1 := ih (i + 1) (pushBucket (roomIdAt rooms (i % rooms.length)) u b)
      (fun j hj => by rw [pushBucket_keys]; exact hk j hj)
    have h2 := flatten_pushBucket (roomIdAt rooms (i % rooms.length)) u b (hk _ hmod)
    exact h1.trans ((List.Perm.append_left rest h2).trans List.perm_middle)

theorem assignUsers_lookup (rooms : List Channel) (hn : 0 < rooms.length)
    (hnd : (rooms.map (·.id)).Nodup) (k : Nat) (hk : k < rooms.length) :
    ∀ (us : List String) (i : Nat) (buckets : List (String × List String))
      (vs : List String),
      alookup (roomIdAt rooms k) buckets = some vs →
      alookup (roomIdAt rooms k) (assignUsers rooms i us buckets) =
        some (vs ++ selectIdx rooms.length k i us) := by
  intro us
  induction us with
  | nil =>
    intro i b vs hv
    simpa [assignUsers, selectIdx] using hv
  | cons u rest ih =>
    intro i b vs hv
    have hmod : i % rooms.length < rooms.length := Nat.mod_lt _ hn
    by_cases hik : i % rooms.length = k
    · have hb : alookup (roomIdAt rooms k)
          (pushBucket (roomIdAt rooms (i % rooms.length)) u b) = some (vs ++ [u]) := by
        rw [hik]
        exact alookup_pushBucket_self _ _ _ _ hv
      have hrec := ih (i + 1) _ _ hb
      rw [show assignUsers rooms i (u :: rest) b =
        assignUsers rooms (i + 1) rest
          (pushBucket (roomIdAt rooms (i % rooms.length)) u b) from rfl]
      rw [hrec]
      simp [selectIdx, hik]
    · have hne : roomIdAt rooms k ≠ roomIdAt rooms (i % rooms.length) := by
        intro hc
        exact hik (roomIdAt_inj rooms hnd hmod hk hc.symm)
      have hb : alookup (roomIdAt rooms k)
          (pushBucket (roomIdAt rooms (i % rooms.length)) u b) = some vs := by
        rw [alookup_pushBucket_ne _ _ _ _ hne]
        exact hv
      have hrec := ih (i + 1) _ _ hb
      rw [show assignUsers rooms i (u :: rest) b =
        assignUsers rooms (i + 1) rest
          (pushBucket (roomIdAt rooms (i % rooms.length)) u b) from rfl]
      rw [hrec]
      simp [selectIdx, hik]

theorem count_mod_step (n k m : Nat) (hn : 0 < n) (hk : k < n) :
    m / n + (if k < m % n then 1 else 0) + (if m % n = k then 1 else 0) =
      (m + 1) / n + (if k < (m + 1) % n then 1 else 0) := by
  have hmod : m % n < n := Nat.mod_lt _ hn
  by_cases hc : m % n + 1 = n
  · have hm1 : m + 1 = n * (m / n + 1) := by
      have h1 := Nat.div_add_mod m n
      rw [Nat.mul_succ]
      omega
    rw [hm1, Nat.mul_div_cancel_left _ hn, Nat.mul_mod_right]
    split_ifs <;> omega
  · have hr1 : m % n + 1 < n := by omega
    have hm1 : m + 1 = (m % n + 1) + n * (m / n) := by
      have h1 := Nat.div_add_mod m n
      omega
    rw [hm1, Nat.add_mul_div_left _ _ hn, Nat.add_mul_mod_self_left,
      Nat.div_eq_of_lt hr1, Nat.mod_eq_of_lt hr1]
    split_ifs <;> omega

theorem selectIdx_append (n k : Nat) (u : String) :
    ∀ (us : List String) (i : Nat),
      selectIdx n k i (us ++ [u]) =
        selectIdx n k i us ++ (if (i + us.length) % n = k then [u] else []) := by
  intro us
  induction us with
  | nil => intro i; simp [selectIdx]
  | cons x rest ih =>
    intro i
    show (if i % n = k then [x] else []) ++ selectIdx n k (i + 1) (rest ++ [u]) =
      ((if i % n = k then [x] else []) ++ selectIdx n k (i + 1) rest) ++
        (if (i + (rest.length + 1)) % n = k then [u] else [])
    rw [ih (i + 1), List.append_assoc]
    have heq : i + 1 + rest.length = i + (rest.length + 1) := by omega
    rw [heq]

theorem selectIdx_length (n k : Nat) (hn : 0 < n) (hk : k < n) (us : List String) :
    (selectIdx n k 0 us).length = us.length / n + if k < us.length % n then 1 else 0 := by
  induction us using List.reverseRecOn with
  | nil => simp [selectIdx]
  | append_singleton us u ih =>
    rw [selectIdx_append, List.length_append, ih]
    have hstep := count_mod_step n k us.length hn hk
    simp only [List.length_append, List.length_cons, List.length_nil, Nat.zero_add,
      apply_ite List.length]
    split_ifs at hstep ⊢ <;> omega

theorem selectIdx_length_balance (n k1 k2 : Nat) (hn : 0 < n) (h1 : k1 < n) (h2 : k2 < n)
    (us : List String) :
    (selectIdx n k1 0 us).length ≤ (selectIdx n k2 0 us).length + 1 := by
  rw [selectIdx_length n k1 hn h1, selectIdx_length n k2 hn h2]
  split_ifs <;> omega

/-- C4: for every non-empty room list with distinct room ids,
`distributeUsers` partitions the participants with no drops or duplicates
(the concatenation of all buckets is a permutation of the input),
assigns round-robin over the shuffled order (bucket `k` holds exactly the
shuffled participants at indices congruent to `k` modulo the room count,
in order), and keeps any two per-room counts within 1 of each other. -/
theorem C4_distributeUsers_partition_roundrobin_balance
    (users : List String) (rooms : List Channel) (rand : Nat → Nat)
    (hne : rooms ≠ []) (hnd : (rooms.map (·.id)).Nodup) :
    ∃ buckets,
      distributeUsers users rooms rand = .ok buckets ∧
      ((buckets.map Prod.snd).flatten).Perm users ∧
      (∀ k, k < rooms.length →
        alookup (roomIdAt rooms k) buckets =
          some (selectIdx rooms.length k 0 (fisherYates users rand))) ∧
      (∀ k1 k2 b1 b2, k1 < rooms.length → k2 < rooms.length →
        alookup (roomIdAt rooms k1) buckets = some b1 →
        alookup (roomIdAt rooms k2) buckets = some b2 →
        b1.length ≤ b2.length + 1) := by
  have hn : 0 < rooms.length := List.length_pos.mpr hne
  have hlen0 : ¬ rooms.length = 0 := by omega
  have hchar : ∀ k, k < rooms.length →
      alookup (roomIdAt rooms k)
        (assignUsers rooms 0 (fisherYates users rand) (initBuckets rooms)) =
      some (selectIdx rooms.length k 0 (fisherYates users rand)) := by
    intro k hk
    have h0 : alookup (roomIdAt rooms k) (initBuckets rooms) = some [] := by
      rw [initBuckets_eq rooms hnd]
      exact alookup_map_pair_nil _ _ (roomIdAt_mem rooms k hk)
    simpa using assignUsers_lookup rooms hn hnd k hk (fisherYates users rand) 0 _ [] h0
  refine ⟨assignUsers rooms 0 (fisherYates users rand) (initBuckets rooms),
    by simp [distributeUsers, hlen0], ?_, hchar, ?_⟩
  · have hkm : ∀ j, j < rooms.length →
        roomIdAt rooms j ∈ (initBuckets rooms).map Prod.fst := by
      intro j hj
      rw [initBuckets_eq rooms hnd]
      simpa [List.map_map, Function.comp] using roomIdAt_mem rooms j hj
    have h1 := assignUsers_join rooms hn (fisherYates users rand) 0 (initBuckets rooms) hkm
    have h2 : ((initBuckets rooms).map Prod.snd).flatten = [] := by
      rw [initBuckets_eq rooms hnd]
      exact flatten_map_pair_nil rooms
    rw [h2, List.append_nil] at h1
    exact h1.trans (fisherYates_perm users rand)
  · intro k1 k2 b1 b2 hk1 hk2 hb1 hb2
    have e1 := hchar k1 hk1
    have e2 := hchar k2 hk2
    rw [hb1] at e1
    rw [hb2] at e2
    obtain rfl : b1 = selectIdx rooms.length k1 0 (fisherYates users rand) :=
      Option.some_inj.mp e1
    obtain rfl : b2 = selectIdx rooms.length k2 0 (fisherYates users rand) :=
      Option.some_inj.mp e2
    exact selectIdx_length_balance rooms.length k1 k2 hn hk1 hk2 _

theorem C4_distributeUsers_partition_roundrobin_balance_witness :
    (([c4RoomA, c4RoomB] : List Channel) ≠ [] ∧
      (([c4RoomA, c4RoomB] : List Channel).map (·.id)).Nodup) ∧
    (∃ buckets,
      distributeUsers ["a", "b", "c"] [c4RoomA, c4RoomB] (fun _ => 0) = .ok buckets ∧
      ((buckets.map Prod.snd).flatten).Perm ["a", "b", "c"] ∧
      (∀ k, k < ([c4RoomA, c4RoomB] : List Channel).length →
        alookup (roomIdAt [c4RoomA, c4RoomB] k) buckets =
          some (selectIdx ([c4RoomA, c4RoomB] : List Channel).length k 0
            (fisherYates ["a", "b", "c"] (fun _ => 0)))) ∧
      (∀ k1 k2 b1 b2, k1 < ([c4RoomA, c4RoomB] : List Channel).length →
        k2 < ([c4RoomA, c4RoomB] : List Channel).length →
        alookup (roomIdAt [c4RoomA, c4RoomB] k1) buckets = some b1 →
        alookup (roomIdAt [c4RoomA, c4RoomB] k2) buckets = some b2 →
        b1.length ≤ b2.length + 1)) :=
  ⟨⟨by decide, by decide⟩,
    C4_distributeUsers_partition_roundrobin_balance ["a", "b", "c"] [c4RoomA, c4RoomB]
      (fun _ => 0) (by decide) (by decide)⟩

/-! ## Create executor lemmas (for C2) -/

@[simp] theorem getCurrentOperation_aupsert_guild (st : Store) (guildId : String)
    (g : GuildState) :
    getCurrentOperation (aupsert guildId (.guild g) st) guildId = g.currentOperation := by
  simp [getCurrentOperation]

theorem getLast?_ite_slice {α : Type} {c : Prop} [Decidable c] {l : List α} {x : α}
    {n : Nat} (hn : 0 < n) :
    (if c then sliceLast n (l ++ [x]) else l ++ [x]).getLast? = some x := by
  split
  · unfold sliceLast
    have hle : (l ++ [x]).length - n ≤ l.length := by
      simp only [List.length_append, List.length_cons, List.length_nil]
      omega
    rw [List.drop_append_of_le_length hle]
    exact List.getLast?_concat _
  · exact List.getLast?_concat _

/-- C2: a resumed 5-room `executeCreate` whose store already records
`create_room_1` and `create_room_2` (with their stored channels still in
the guild's channel list) creates only rooms 3, 4 and 5 externally, and
the archived operation's `store_rooms` step tracks exactly 5 room ids. -/
theorem C2_create_resume_skips_completed
    (st : Store) (ss : Sessions) (env : GuildEnv) (force : Bool) (now : Nat)
    (freshIds : Nat → String) (hasParent : Bool)
    (g : GuildState) (op : CurrentOperation) (s1 s2 : OperationStep)
    (c1 c2 : String) (ch1 ch2 : Channel)
    (hg : alookup env.guildId st = some (.guild g))
    (hop : g.currentOperation = some op)
    (hty : op.type = "create")
    (h1 : alookup "create_room_1" op.progress.steps = some s1)
    (h1id : s1.data.channelId = some c1)
    (h1ch : cacheGet env c1 = some ch1)
    (h2 : alookup "create_room_2" op.progress.steps = some s2)
    (h2id : s2.data.channelId = some c2)
    (h2ch : cacheGet env c2 = some ch2)
    (h3 : alookup "create_room_3" op.progress.steps = none)
    (h4 : alookup "create_room_4" op.progress.steps = none)
    (h5 : alookup "create_room_5" op.progress.steps = none) :
    (executeCreate st ss env 5 force now freshIds hasParent).created =
      ["breakout-room-3", "breakout-room-4", "breakout-room-5"] ∧
    ((lastHistory (executeCreate st ss env 5 force now freshIds hasParent).store
        env.guildId).bind
      (fun opDone => (alookup "store_rooms" opDone.progress.steps).bind
        (fun s => s.data.roomIds.map List.length))) = some 5 := by
  have hgs : getGuildState st env.guildId = some g := by
    simp [getGuildState, hg]
  have hcur : getCurrentOperation st env.guildId = some op := by
    simp [getCurrentOperation, hgs, hop]
  have hres : executeCreate st ss env 5 force now freshIds hasParent =
      createBody st ss env 5 now freshIds hasParent [] := by
    simp [executeCreate, hcur, hty]
  have hsteps : getCompletedSteps st env.guildId = op.progress.steps := by
    simp [getCompletedSteps, hcur]
  have e1 : ("create_room_" ++ toString (1 : Nat)) = "create_room_1" := rfl
  have e2 : ("create_room_" ++ toString (2 : Nat)) = "create_room_2" := rfl
  have e3 : ("create_room_" ++ toString (3 : Nat)) = "create_room_3" := rfl
  have e4 : ("create_room_" ++ toString (4 : Nat)) = "create_room_4" := rfl
  have e5 : ("create_room_" ++ toString (5 : Nat)) = "create_room_5" := rfl
  have hidx : roomIndices 5 = [1, 2, 3, 4, 5] := rfl
  have b3 : ("breakout-room-" ++ toString (3 : Nat)) = "breakout-room-3" := rfl
  have b4 : ("breakout-room-" ++ toString (4 : Nat)) = "breakout-room-4" := rfl
  have b5 : ("breakout-room-" ++ toString (5 : Nat)) = "breakout-room-5" := rfl
  rw [hres]
  constructor
  · simp [createBody, hidx, createLoop, e1, e2, e3, e4, e5, b3, b4, b5, hsteps,
      h1, h1id, h1ch, h2, h2id, h2ch, h3, h4, h5, updateProgress, getCompletedSteps,
      getCurrentOperation, hgs, hop, alookup_aupsert_ne]
  · simp [createBody, hidx, createLoop, e1, e2, e3, e4, e5, b3, b4, b5, hsteps,
      h1, h1id, h1ch, h2, h2id, h2ch, h3, h4, h5, updateProgress, getCompletedSteps,
      getCurrentOperation, hgs, hop, alookup_aupsert_ne, completeOperation,
      lastHistory, aupsert_aupsert_same]
    rw [getLast?_ite_slice (by norm_num [HISTORY_MAX])]
    simp [alookup_aupsert_self]

theorem C2_create_resume_skips_completed_witness :
    alookup c2Env.guildId c2Store = some (.guild { currentOperation := some c2Op }) ∧
    ((executeCreate c2Store [] c2Env 5 false 7 (fun k => "n" ++ toString k) false).created =
        ["breakout-room-3", "breakout-room-4", "breakout-room-5"] ∧
      ((lastHistory
          (executeCreate c2Store [] c2Env 5 false 7 (fun k => "n" ++ toString k) false).store
          c2Env.guildId).bind
        (fun opDone => (alookup "store_rooms" opDone.progress.steps).bind
          (fun s => s.data.roomIds.map List.length))) = some 5) :=
  ⟨rfl, C2_create_resume_skips_completed c2Store [] c2Env false 7
      (fun k => "n" ++ toString k) false { currentOperation := some c2Op } c2Op
      c2Step1 c2Step2 "c1" "c2" c2Ch1 c2Ch2
      rfl rfl rfl rfl rfl rfl rfl rfl rfl rfl rfl rfl⟩

/-- C8: a non-resuming executor invocation whose precondition fails without
force returns a structured `success = false` result whose message offers
the force override, without throwing and without calling `startOperation`:
the operation store is returned exactly as it was, and no external side
effect is issued.  First conjunct: `executeCreate` when breakout rooms
already exist; second: `executeEnd` when rooms are found but none has
occupants. -/
theorem C8_precondition_failure_leaves_store_unchanged :
    (∀ (st : Store) (ss : Sessions) (env : GuildEnv) (numRooms : Nat) (now : Nat)
        (freshIds : Nat → String) (hasParent : Bool),
      (∀ op, getCurrentOperation st env.guildId = some op → ¬ op.type = "create") →
      (hasExistingBreakoutRooms ss env).1.existsFlag = true →
      executeCreate st ss env numRooms false now freshIds hasParent =
        { result := { success := false
                      message :=
                        createExistsMessage (hasExistingBreakoutRooms ss env).1.rooms.length }
          store := st
          sessions := (hasExistingBreakoutRooms ss env).2
          env := env
          created := []
          deletedRooms := [] }) ∧
    (∀ (st : Store) (ss : Sessions) (env : GuildEnv) (mainChannel : Channel)
        (moveOk deleteOk : String → Bool) (now : Nat),
      (∀ op, getCurrentOperation st env.guildId = some op → ¬ op.type = "end") →
      endDiscoveryRooms ss env ≠ [] →
      (∀ room ∈ endDiscoveryRooms ss env, ∀ ch,
        cacheGet env room.id = some ch → ch.members = []) →
      executeEnd st ss env mainChannel false moveOk deleteOk now =
        { result := { success := false, message := endNoUsersMessage }
          store := st
          sessions := ss
          env := env
          movesIssued := []
          deletesIssued := [] }) := by
  constructor
  · intro st ss env numRooms now freshIds hasParent hnr hex
    cases ho : getCurrentOperation st env.guildId with
    | none => simp [executeCreate, ho, hex]
    | some op =>
      have hdec : decide (op.type = "create") = false := by
        simp [hnr op ho]
      simp [executeCreate, ho, hdec, hex]
  · intro st ss env mainChannel moveOk deleteOk now hnr hne hempty
    have hlen : ¬ (endDiscoveryRooms ss env).length = 0 := by
      simpa [List.length_eq_zero] using hne
    have husers : (endDiscoveryRooms ss env).any (fun room =>
        match cacheGet env room.id with
        | some guildRoom => decide (guildRoom.members.length > 0)
        | none => false) = false := by
      rw [List.any_eq_false]
      intro room hr
      cases hc : cacheGet env room.id with
      | none => simp
      | some ch =>
        have := hempty room hr ch hc
        simp [this]
    cases ho : getCurrentOperation st env.guildId with
    | none => simp [executeEnd, ho, hlen, husers]
    | some op =>
      have hdec : decide (op.type = "end") = false := by
        simp [hnr op ho]
      simp [executeEnd, ho, hdec, hlen, husers]

theorem C8_precondition_failure_leaves_store_unchanged_witness :
    ((hasExistingBreakoutRooms [] c1Env).1.existsFlag = true ∧
      endDiscoveryRooms [] c8EndEnv ≠ []) ∧
    (executeCreate c1Store [] c1Env 5 false 7 (fun k => "n" ++ toString k) false =
      { result := { success := false
                    message :=
                      createExistsMessage (hasExistingBreakoutRooms [] c1Env).1.rooms.length }
        store := c1Store
        sessions := (hasExistingBreakoutRooms [] c1Env).2
        env := c1Env
        created := []
        deletedRooms := [] } ∧
     executeEnd [] [] c8EndEnv c9MainChannel false (fun _ => true) (fun _ => true) 7 =
      { result := { success := false, message := endNoUsersMessage }
        store := []
        sessions := []
        env := c8EndEnv
        movesIssued := []
        deletesIssued := [] }) :=
  ⟨⟨by decide, by decide⟩,
    ⟨C8_precondition_failure_leaves_store_unchanged.1 c1Store [] c1Env 5 7
        (fun k => "n" ++ toString k) false
        (by
          intro op h
          have he : c1Op = op := Option.some_inj.mp
            ((rfl : getCurrentOperation c1Store c1Env.guildId = some c1Op).symm.trans h)
          rw [← he]
          decide)
        (by decide),
      C8_precondition_failure_leaves_store_unchanged.2 [] [] c8EndEnv c9MainChannel
        (fun _ => true) (fun _ => true) 7
        (by
          intro op h
          have he : getCurrentOperation ([] : Store) c8EndEnv.guildId = none := rfl
          rw [he] at h
          exact Option.noConfusion h)
        (by decide)
        (by
          intro room hr ch hc
          rw [show endDiscoveryRooms [] c8EndEnv = [c8EndRoom] from rfl] at hr
          have hre : room = c8EndRoom := by simpa using hr
          subst hre
          have hval : cacheGet c8EndEnv c8EndRoom.id = some c8EndRoom := rfl
          rw [hval] at hc
          have hch : ch = c8EndRoom := (Option.some_inj.mp hc).symm
          subst hch
          rfl)⟩⟩

/-- C1 (code bug): on resume the legacy `DistributeOperation.execute`
iterates the caller-supplied fresh plan instead of the persisted one.
Here the persisted plan sends `A` to room `R` (and `A` is still a guild
member, so it re-resolves), yet with a fresh plan sending `B` the class
issues the move `(B, R)`; the functional `executeDistribute` of
`operations/distribute.ts` reconstructs the persisted plan and issues
`(A, R)`, as the claim (and the caller's comment in
`commands/main/breakout.ts`) requires. -/
theorem C1_distribute_resume_ignores_persisted_plan :
    (distributeOperationExecute c1Store [] c1Env c1Main [("R", ["B"])] false
        (fun _ => true) 7).movesAttempted = [("B", "R")] ∧
    (executeDistribute c1Store [] c1Env c1Main [("R", ["B"])] false
        (fun _ => true) 7).movesAttempted = [("A", "R")] ∧
    reconstructDistribution c1Env [("R", ["A"])] = [("R", ["A"])] ∧
    ¬ ([("B", "R")] : List (String × String)) = [("A", "R")] :=
  ⟨rfl, rfl, rfl, by decide⟩

/-- C9 counterexample: an uninterrupted `executeEnd` over one room holding
`A` and `B` reports 2 members moved, but a run resumed after the first
attempt moved `A` (recording `member_moved_A_from_R`) and crashed before
`room_processed_R` reports only 1 — the member moved by the prior attempt
is no longer in the room, so the resumed run's success message does NOT
match the uninterrupted run's. -/
theorem C9_resumed_totals_differ_from_uninterrupted :
    (executeEnd [] [] c9FreshEnv c9MainChannel false (fun _ => true) (fun _ => true)
        0).result.message = endSuccessMessage 2 1 1 "main" ∧
    (executeEnd c9ResumeStore [] c9ResumeEnv c9MainChannel false (fun _ => true)
        (fun _ => true) 0).result.message = endSuccessMessage 1 1 1 "main" ∧
    ¬ endSuccessMessage 2 1 1 "main" = endSuccessMessage 1 1 1 "main" :=
  ⟨rfl, rfl, by decide⟩

/-! ## End executor lemmas (for the amended C9) -/

theorem getCompletedSteps_updateProgress_lookup_ne (st : Store) (guildId key k : String)
    (d : StepData) (t : Nat) (h : ¬ k = key) :
    alookup k (getCompletedSteps ((updateProgress st guildId key d t).1) guildId) =
      alookup k (getCompletedSteps st guildId) := by
  cases hg : getGuildState st guildId with
  | none => simp [updateProgress, hg]
  | some g =>
    cases hop : g.currentOperation with
    | none => simp [updateProgress, hg, hop]
    | some op =>
      simp [updateProgress, hg, hop, getCompletedSteps, getCurrentOperation,
        getGuildState_aupsert_guild, alookup_aupsert_ne _ _ (fun hh => h hh.symm)]

@[simp] theorem moveChanFn_id (m target : String) (c : Channel) :
    (moveChanFn m target c).id = c.id := by
  simp only [moveChanFn]
  split <;> rfl

theorem moveChanFn_eq_self (m target : String) (c : Channel) (ht : ¬ c.id = target)
    (hm : m ∉ c.members) : moveChanFn m target c = c := by
  have hf : c.members.filter (fun x => decide (x ≠ m)) = c.members := by
    rw [List.filter_eq_self]
    intro a ha
    simp only [decide_eq_true_eq]
    intro he
    exact hm (he ▸ ha)
  rw [moveChanFn, if_neg ht, hf]

theorem cacheGet_some_id (env : GuildEnv) (cid : String) (c : Channel)
    (h : cacheGet env cid = some c) : c.id = cid := by
  have hp := List.find?_some h
  simpa using hp

theorem find?_map_moveChanFn (m target cid : String) (c : Channel) :
    ∀ l : List Channel,
      l.find? (fun ch => decide (ch.id = cid)) = some c →
      ¬ c.id = target → m ∉ c.members →
      (l.map (moveChanFn m target)).find? (fun ch => decide (ch.id = cid)) = some c := by
  intro l
  induction l with
  | nil => intro h; simp at h
  | cons ch rest ih =>
    intro hfind ht hm
    by_cases hid : ch.id = cid
    · have hce : c = ch := by
        have := List.find?_cons_of_pos (p := fun ch => decide (ch.id = cid)) rest
          (by simpa using hid)
        rw [this] at hfind
        exact (Option.some_inj.mp hfind).symm
      subst hce
      have hmc : moveChanFn m target c = c := moveChanFn_eq_self m target c ht hm
      simp only [List.map_cons, hmc]
      exact List.find?_cons_of_pos _ (by simpa using hid)
    · have hfind' : rest.find? (fun ch => decide (ch.id = cid)) = some c := by
        rw [List.find?_cons_of_neg _ (by simpa using hid)] at hfind
        exact hfind
      simp only [List.map_cons]
      rw [List.find?_cons_of_neg _ (by simpa using hid)]
      exact ih hfind' ht hm

theorem cacheGet_moveMember_some (env : GuildEnv) (m target cid : String) (c : Channel)
    (hc : cacheGet env cid = some c) (ht : ¬ c.id = target) (hm : m ∉ c.members) :
    cacheGet (moveMember env m target) cid = some c :=
  find?_map_moveChanFn m target cid c env.channels hc ht hm

theorem cacheGet_moveMember_none (env : GuildEnv) (m target cid : String)
    (h : cacheGet env cid = none) :
    cacheGet (moveMember env m target) cid = none := by
  rw [cacheGet, List.find?_eq_none] at h ⊢
  intro ch hch
  rcases List.mem_map.mp hch with ⟨ch0, hch0, rfl⟩
  simpa using h ch0 hch0

theorem find?_filter_id_ne (rid cid : String) (h : ¬ cid = rid) :
    ∀ l : List Channel,
      (l.filter (fun c => decide (c.id ≠ rid))).find? (fun c => decide (c.id = cid)) =
        l.find? (fun c => decide (c.id = cid)) := by
  intro l
  induction l with
  | nil => rfl
  | cons c rest ih =>
    by_cases hc : c.id = rid
    · have hne : ¬ c.id = cid := by
        rw [hc]
        exact fun hh => h hh.symm
      rw [List.filter_cons_of_neg (by simpa using hc)]
      rw [List.find?_cons_of_neg _ (by simpa using hne)]
      exact ih
    · rw [List.filter_cons_of_pos (by simpa using hc)]
      by_cases h2 : c.id = cid
      · rw [List.find?_cons_of_pos _ (by simpa using h2),
          List.find?_cons_of_pos _ (by simpa using h2)]
      · rw [List.find?_cons_of_neg _ (by simpa using h2),
          List.find?_cons_of_neg _ (by simpa using h2)]
        exact ih

theorem cacheGet_deleteChannel_ne (env : GuildEnv) (rid cid : String) (h : ¬ cid = rid) :
    cacheGet (deleteChannel env rid) cid = cacheGet env cid :=
  find?_filter_id_ne rid cid h env.channels

theorem endMemberLoop_counts (guildId : String) (now : Nat) (moveOk : String → Bool)
    (steps : List (String × OperationStep)) (roomId : String) (mainChannel : Channel) :
    ∀ (members : List String) (st : Store) (env : GuildEnv) (roomMoved totalMoved : Nat)
      (mi : List (String × String)),
      (endMemberLoop guildId now moveOk steps roomId mainChannel members st env
          roomMoved totalMoved mi).2.2.1 =
        roomMoved + (members.filter (memberCounted steps moveOk roomId)).length ∧
      (endMemberLoop guildId now moveOk steps roomId mainChannel members st env
          roomMoved totalMoved mi).2.2.2.1 =
        totalMoved + (members.filter (memberCounted steps moveOk roomId)).length := by
  intro members
  induction members with
  | nil =>
    intro st env roomMoved totalMoved mi
    simp [endMemberLoop]
  | cons m rest ih =>
    intro st env roomMoved totalMoved mi
    by_cases hstep : (alookup ("member_moved_" ++ m ++ "_from_" ++ roomId) steps).isSome
    · have hcnt : memberCounted steps moveOk roomId m = true := by
        simp [memberCounted, hstep]
      have := ih st env (roomMoved + 1) (totalMoved + 1) mi
      simp only [endMemberLoop, if_pos hstep, List.filter_cons, hcnt, if_true]
      constructor
      · rw [this.1]
        simp
        omega
      · rw [this.2]
        simp
        omega
    · by_cases hmv : moveOk m
      · have hcnt : memberCounted steps moveOk roomId m = true := by
          simp [memberCounted, hstep, hmv]
        have := ih ((updateProgress st guildId
            ("member_moved_" ++ m ++ "_from_" ++ roomId) {} now).1)
          (moveMember env m mainChannel.id) (roomMoved + 1) (totalMoved + 1)
          (mi ++ [(m, roomId)])
        simp only [endMemberLoop, if_neg hstep, if_pos hmv, List.filter_cons, hcnt, if_true]
        constructor
        · rw [this.1]
          simp
          omega
        · rw [this.2]
          simp
          omega
      · have hcnt : memberCounted steps moveOk roomId m = false := by
          simp [memberCounted, hstep, hmv]
        have := ih st env roomMoved totalMoved (mi ++ [(m, roomId)])
        simp only [endMemberLoop, if_neg hstep, if_neg hmv, List.filter_cons, hcnt]
        simpa using this

theorem endMemberLoop_steps_pres (guildId : String) (now : Nat) (moveOk : String → Bool)
    (steps : List (String × OperationStep)) (roomId : String) (mainChannel : Channel)
    (k : String) :
    ∀ (members : List String) (st : Store) (env : GuildEnv) (roomMoved totalMoved : Nat)
      (mi : List (String × String)),
      (∀ m ∈ members, ¬ k = "member_moved_" ++ m ++ "_from_" ++ roomId) →
      alookup k (getCompletedSteps (endMemberLoop guildId now moveOk steps roomId
          mainChannel members st env roomMoved totalMoved mi).1 guildId) =
        alookup k (getCompletedSteps st guildId) := by
  intro members
  induction members with
  | nil =>
    intro st env roomMoved totalMoved mi _
    simp [endMemberLoop]
  | cons m rest ih =>
    intro st env roomMoved totalMoved mi hk
    by_cases hstep : (alookup ("member_moved_" ++ m ++ "_from_" ++ roomId) steps).isSome
    · simp only [endMemberLoop, if_pos hstep]
      exact ih st env _ _ mi (fun m' hm' => hk m' (by simp [hm']))
    · by_cases hmv : moveOk m
      · simp only [endMemberLoop, if_neg hstep, if_pos hmv]
        rw [ih _ _ _ _ _ (fun m' hm' => hk m' (by simp [hm']))]
        exact getCompletedSteps_updateProgress_lookup_ne st guildId _ k {} now
          (hk m (by simp))
      · simp only [endMemberLoop, if_neg hstep, if_neg hmv]
        exact ih st env _ _ _ (fun m' hm' => hk m' (by simp [hm']))

theorem endMemberLoop_env_pres (guildId : String) (now : Nat) (moveOk : String → Bool)
    (steps : List (String × OperationStep)) (roomId : String) (mainChannel : Channel)
    (cid : String) (hmain : ¬ cid = mainChannel.id) :
    ∀ (members : List String) (st : Store) (env : GuildEnv) (roomMoved totalMoved : Nat)
      (mi : List (String × String)),
      (∀ m ∈ members, ∀ c, cacheGet env cid = some c → m ∉ c.members) →
      cacheGet (endMemberLoop guildId now moveOk steps roomId mainChannel members st env
          roomMoved totalMoved mi).2.1 cid = cacheGet env cid := by
  intro members
  induction members with
  | nil =>
    intro st env roomMoved totalMoved mi _
    simp [endMemberLoop]
  | cons m rest ih =>
    intro st env roomMoved totalMoved mi hmem
    by_cases hstep : (alookup ("member_moved_" ++ m ++ "_from_" ++ roomId) steps).isSome
    · simp only [endMemberLoop, if_pos hstep]
      exact ih st env _ _ mi (fun m' hm' => hmem m' (by simp [hm']))
    · by_cases hmv : moveOk m
      · simp only [endMemberLoop, if_neg hstep, if_pos hmv]
        have henv : cacheGet (moveMember env m mainChannel.id) cid = cacheGet env cid := by
          cases hc : cacheGet env cid with
          | none => exact cacheGet_moveMember_none env m mainChannel.id cid hc
          | some c =>
            have hcid : c.id = cid := cacheGet_some_id env cid c hc
            exact cacheGet_moveMember_some env m mainChannel.id cid c hc
              (by rw [hcid]; exact hmain) (hmem m (by simp) c hc)
        rw [ih _ _ _ _ _ ?_]
        · exact henv
        · intro m' hm' c hc
          rw [henv] at hc
          exact hmem m' (by simp [hm']) c hc
      · simp only [endMemberLoop, if_neg hstep, if_neg hmv]
        exact ih st env _ _ _ (fun m' hm' => hmem m' (by simp [hm']))

theorem endRoomLoop_cons_processed (guildId : String) (now : Nat)
    (moveOk deleteOk : String → Bool) (mainChannel room : Channel) (rest : List Channel)
    (s : RoomProcState) (pd : OperationStep)
    (hpd : alookup ("room_processed_" ++ room.id) (getCompletedSteps s.store guildId) =
      some pd) :
    endRoomLoop guildId now moveOk deleteOk mainChannel (room :: rest) s =
      endRoomLoop guildId now moveOk deleteOk mainChannel rest
        { s with deletedRooms := s.deletedRooms + 1
                 totalMoved := s.totalMoved + pd.data.movedCount.getD 0 } := by
  simp only [endRoomLoop, hpd]

theorem endRoomLoop_cons_missing (guildId : String) (now : Nat)
    (moveOk deleteOk : String → Bool) (mainChannel room : Channel) (rest : List Channel)
    (s : RoomProcState)
    (hpd : alookup ("room_processed_" ++ room.id) (getCompletedSteps s.store guildId) =
      none)
    (hc : cacheGet s.env room.id = none) :
    endRoomLoop guildId now moveOk deleteOk mainChannel (room :: rest) s =
      endRoomLoop guildId now moveOk deleteOk mainChannel rest
        { s with
            store := (updateProgress s.store guildId ("room_processed_" ++ room.id)
              { skipped := some true, movedCount := some 0 } now).1
            deletedRooms := s.deletedRooms + 1 } := by
  simp only [endRoomLoop, hpd, hc]

theorem endRoomLoop_cons_live (guildId : String) (now : Nat)
    (moveOk deleteOk : String → Bool) (mainChannel room : Channel) (rest : List Channel)
    (s : RoomProcState) (guildRoom : Channel)
    (hpd : alookup ("room_processed_" ++ room.id) (getCompletedSteps s.store guildId) =
      none)
    (hc : cacheGet s.env room.id = some guildRoom) :
    endRoomLoop guildId now moveOk deleteOk mainChannel (room :: rest) s =
      (let steps := getCompletedSteps s.store guildId
       let m := endMemberLoop guildId now moveOk steps room.id mainChannel
         guildRoom.members s.store s.env 0 s.totalMoved s.movesIssued
       let d : Store × GuildEnv × Nat × List String :=
         if (alookup ("room_deleted_" ++ room.id) steps).isSome then
           (m.1, m.2.1, s.deletedRooms + 1, s.deletesIssued)
         else if deleteOk room.id then
           ((updateProgress m.1 guildId ("room_deleted_" ++ room.id) {} now).1,
             deleteChannel m.2.1 room.id, s.deletedRooms + 1,
             s.deletesIssued ++ [room.id])
         else (m.1, m.2.1, s.deletedRooms, s.deletesIssued ++ [room.id])
       endRoomLoop guildId now moveOk deleteOk mainChannel rest
         { store := (updateProgress d.1 guildId ("room_processed_" ++ room.id)
             { movedCount := some m.2.2.1 } now).1
           env := d.2.1
           totalMoved := m.2.2.2.1
           deletedRooms := d.2.2.1
           movesIssued := m.2.2.2.2
           deletesIssued := d.2.2.2 }) := by
  simp only [endRoomLoop, hpd, hc]

theorem endRoomLoop_totals (guildId : String) (now : Nat) (moveOk deleteOk : String → Bool)
    (mainChannel : Channel) (st0 : Store) (env0 : GuildEnv) :
    ∀ (rooms : List Channel) (s : RoomProcState),
      (∀ r ∈ rooms, ∀ k ∈ roomStepKeys env0 r,
        alookup k (getCompletedSteps s.store guildId) =
          alookup k (getCompletedSteps st0 guildId)) →
      (∀ r ∈ rooms, cacheGet s.env r.id = cacheGet env0 r.id) →
      List.Pairwise
        (fun r1 r2 => ∀ k ∈ roomStepKeys env0 r1, k ∉ roomStepKeys env0 r2) rooms →
      (rooms.map (·.id)).Nodup →
      (∀ r ∈ rooms, ¬ r.id = mainChannel.id) →
      List.Pairwise
        (fun r1 r2 => ∀ m ∈ liveMembers env0 r1, m ∉ liveMembers env0 r2) rooms →
      (endRoomLoop guildId now moveOk deleteOk mainChannel rooms s).totalMoved =
          s.totalMoved + (rooms.map (roomMovedContribution
            (getCompletedSteps st0 guildId) env0 moveOk)).sum ∧
        (endRoomLoop guildId now moveOk deleteOk mainChannel rooms s).deletedRooms =
          s.deletedRooms + (rooms.map (roomDeletedContribution
            (getCompletedSteps st0 guildId) env0 deleteOk)).sum := by
  intro rooms
  induction rooms with
  | nil =>
    intro s _ _ _ _ _ _
    simp [endRoomLoop]
  | cons room rest ih =>
    intro s hsteps henv hkeys hnd hmain hdisj
    have hkproc : ("room_processed_" ++ room.id) ∈ roomStepKeys env0 room := by
      simp [roomStepKeys]
    have hkdel : ("room_deleted_" ++ room.id) ∈ roomStepKeys env0 room := by
      simp [roomStepKeys]
    have hproc0 : alookup ("room_processed_" ++ room.id)
        (getCompletedSteps s.store guildId) =
        alookup ("room_processed_" ++ room.id) (getCompletedSteps st0 guildId) :=
      hsteps room (by simp) _ hkproc
    have hdel0 : alookup ("room_deleted_" ++ room.id)
        (getCompletedSteps s.store guildId) =
        alookup ("room_deleted_" ++ room.id) (getCompletedSteps st0 guildId) :=
      hsteps room (by simp) _ hkdel
    have henv0 : cacheGet s.env room.id = cacheGet env0 room.id := henv room (by simp)
    have hkeys' := List.pairwise_cons.mp hkeys
    have hdisj' := List.pairwise_cons.mp hdisj
    have hnd' : room.id ∉ rest.map (·.id) ∧ (rest.map (·.id)).Nodup := by
      simpa using hnd
    cases hproc : alookup ("room_processed_" ++ room.id)
        (getCompletedSteps st0 guildId) with
    | some pd =>
      rw [endRoomLoop_cons_processed guildId now moveOk deleteOk mainChannel room rest s
        pd (hproc0.trans hproc)]
      have hrec := ih { s with
          deletedRooms := s.deletedRooms + 1
          totalMoved := s.totalMoved + pd.data.movedCount.getD 0 }
        (fun r hr k hk => hsteps r (by simp [hr]) k hk)
        (fun r hr => henv r (by simp [hr])) hkeys'.2 hnd'.2
        (fun r hr => hmain r (by simp [hr])) hdisj'.2
      rw [hrec.1, hrec.2]
      simp only [List.map_cons, List.sum_cons, roomMovedContribution,
        roomDeletedContribution, hproc]
      omega
    | none =>
      have hprocS : alookup ("room_processed_" ++ room.id)
          (getCompletedSteps s.store guildId) = none := hproc0.trans hproc
      cases hcache : cacheGet env0 room.id with
      | none =>
        have hcs : cacheGet s.env room.id = none := henv0.trans hcache
        rw [endRoomLoop_cons_missing guildId now moveOk deleteOk mainChannel room rest s
          hprocS hcs]
        have hstepsR : ∀ r ∈ rest, ∀ k ∈ roomStepKeys env0 r,
            alookup k (getCompletedSteps ((updateProgress s.store guildId
              ("room_processed_" ++ room.id)
              { skipped := some true, movedCount := some 0 } now).1) guildId) =
              alookup k (getCompletedSteps st0 guildId) := by
          intro r hr k hk
          have hkne : ¬ k = "room_processed_" ++ room.id := by
            intro he
            exact hkeys'.1 r hr _ hkproc (he ▸ hk)
          rw [getCompletedSteps_updateProgress_lookup_ne _ _ _ _ _ _ hkne]
          exact hsteps r (by simp [hr]) k hk
        have hrec := ih { s with
            store := (updateProgress s.store guildId ("room_processed_" ++ room.id)
              { skipped := some true, movedCount := some 0 } now).1
            deletedRooms := s.deletedRooms + 1 }
          hstepsR (fun r hr => henv r (by simp [hr])) hkeys'.2 hnd'.2
          (fun r hr => hmain r (by simp [hr])) hdisj'.2
        rw [hrec.1, hrec.2]
        simp only [List.map_cons, List.sum_cons, roomMovedContribution,
          roomDeletedContribution, hproc, hcache]
        omega
      | some guildRoom =>
        have hcs : cacheGet s.env room.id = some guildRoom := henv0.trans hcache
        have hlive : liveMembers env0 room = guildRoom.members := by
          simp [liveMembers, hcache]
        rw [endRoomLoop_cons_live guildId now moveOk deleteOk mainChannel room rest s
          guildRoom hprocS hcs]
        dsimp only
        set mres := endMemberLoop guildId now moveOk (getCompletedSteps s.store guildId)
          room.id mainChannel guildRoom.members s.store s.env 0 s.totalMoved
          s.movesIssued with hmres
        -- the member loop
        have hmk : ∀ m' ∈ guildRoom.members,
            ("member_moved_" ++ m' ++ "_from_" ++ room.id) ∈ roomStepKeys env0 room := by
          intro m' hm'
          simp only [roomStepKeys, hlive, List.mem_cons]
          right; right
          exact List.mem_map_of_mem _ hm'
        have hcnt :
            mres.2.2.1 = 0 + (guildRoom.members.filter
              (memberCounted (getCompletedSteps s.store guildId) moveOk room.id)).length ∧
            mres.2.2.2.1 = s.totalMoved + (guildRoom.members.filter
              (memberCounted (getCompletedSteps s.store guildId) moveOk
                room.id)).length := by
          rw [hmres]
          exact endMemberLoop_counts guildId now moveOk
            (getCompletedSteps s.store guildId) room.id mainChannel guildRoom.members
            s.store s.env 0 s.totalMoved s.movesIssued
        have hfiltereq : guildRoom.members.filter
            (memberCounted (getCompletedSteps s.store guildId) moveOk room.id) =
            guildRoom.members.filter
              (memberCounted (getCompletedSteps st0 guildId) moveOk room.id) := by
          apply List.filter_congr
          intro m' hm'
          unfold memberCounted
          rw [hsteps room (by simp) _ (hmk m' hm')]
        -- store preservation for the rest rooms
        have hstepsMem : ∀ r ∈ rest, ∀ k ∈ roomStepKeys env0 r,
            alookup k (getCompletedSteps mres.1 guildId) =
              alookup k (getCompletedSteps st0 guildId) := by
          intro r hr k hk
          rw [hmres]
          rw [endMemberLoop_steps_pres guildId now moveOk _ room.id mainChannel k
            guildRoom.members s.store s.env 0 s.totalMoved s.movesIssued
            (fun m' hm' he => hkeys'.1 r hr _ (hmk m' hm') (he ▸ hk))]
          exact hsteps r (by simp [hr]) k hk
        -- env preservation for the rest rooms
        have henvMem : ∀ r ∈ rest,
            cacheGet mres.2.1 r.id = cacheGet env0 r.id := by
          intro r hr
          rw [hmres]
          rw [endMemberLoop_env_pres guildId now moveOk _ room.id mainChannel r.id
            (hmain r (by simp [hr])) guildRoom.members s.store s.env 0 s.totalMoved
            s.movesIssued ?_]
          · exact henv r (by simp [hr])
          · intro m' hm' c hc
            rw [henv r (by simp [hr])] at hc
            have : m' ∈ liveMembers env0 room := by rw [hlive]; exact hm'
            have hnot := hdisj'.1 r hr m' this
            rw [show liveMembers env0 r = c.members by simp [liveMembers, hc]] at hnot
            exact hnot
        have hrne : ∀ r ∈ rest, ¬ r.id = room.id := by
          intro r hr he
          exact hnd'.1 (he ▸ List.mem_map_of_mem (·.id) hr)
        -- case split on the delete branch
        by_cases hdelS : (alookup ("room_deleted_" ++ room.id)
            (getCompletedSteps s.store guildId)).isSome
        · rw [if_pos hdelS]
          dsimp only
          have hstepsR : ∀ r ∈ rest, ∀ k ∈ roomStepKeys env0 r,
              alookup k (getCompletedSteps ((updateProgress mres.1 guildId
                ("room_processed_" ++ room.id)
                { movedCount := some mres.2.2.1 } now).1) guildId) =
                alookup k (getCompletedSteps st0 guildId) := by
            intro r hr k hk
            have hkne : ¬ k = "room_processed_" ++ room.id := by
              intro he
              exact hkeys'.1 r hr _ hkproc (he ▸ hk)
            rw [getCompletedSteps_updateProgress_lookup_ne _ _ _ _ _ _ hkne]
            exact hstepsMem r hr k hk
          have hrec := ih
            { store := (updateProgress mres.1 guildId ("room_processed_" ++ room.id)
                { movedCount := some mres.2.2.1 } now).1
              env := mres.2.1
              totalMoved := mres.2.2.2.1
              deletedRooms := s.deletedRooms + 1
              movesIssued := mres.2.2.2.2
              deletesIssued := s.deletesIssued }
            hstepsR henvMem hkeys'.2 hnd'.2
            (fun r hr => hmain r (by simp [hr])) hdisj'.2
          rw [hrec.1, hrec.2]
          have hdel0' : (alookup ("room_deleted_" ++ room.id)
              (getCompletedSteps st0 guildId)).isSome := by
            rw [← hdel0]
            exact hdelS
          simp only [List.map_cons, List.sum_cons, roomMovedContribution,
            roomDeletedContribution, hproc, hcache, hdel0', if_pos, hcnt.1, hcnt.2,
            hfiltereq]
          omega
        · rw [if_neg hdelS]
          have hdel0' : (alookup ("room_deleted_" ++ room.id)
              (getCompletedSteps st0 guildId)).isSome = false := by
            rw [← hdel0]
            simpa using hdelS
          by_cases hdok : deleteOk room.id
          · rw [if_pos hdok]
            dsimp only
            have hstepsR : ∀ r ∈ rest, ∀ k ∈ roomStepKeys env0 r,
                alookup k (getCompletedSteps ((updateProgress ((updateProgress mres.1
                  guildId ("room_deleted_" ++ room.id) {} now).1) guildId
                  ("room_processed_" ++ room.id)
                  { movedCount := some mres.2.2.1 } now).1) guildId) =
                  alookup k (getCompletedSteps st0 guildId) := by
              intro r hr k hk
              have hkne1 : ¬ k = "room_processed_" ++ room.id := by
                intro he
                exact hkeys'.1 r hr _ hkproc (he ▸ hk)
              have hkne2 : ¬ k = "room_deleted_" ++ room.id := by
                intro he
                exact hkeys'.1 r hr _ hkdel (he ▸ hk)
              rw [getCompletedSteps_updateProgress_lookup_ne _ _ _ _ _ _ hkne1]
              rw [getCompletedSteps_updateProgress_lookup_ne _ _ _ _ _ _ hkne2]
              exact hstepsMem r hr k hk
            have henvR : ∀ r ∈ rest,
                cacheGet (deleteChannel mres.2.1 room.id) r.id = cacheGet env0 r.id := by
              intro r hr
              rw [cacheGet_deleteChannel_ne _ _ _ (hrne r hr)]
              exact henvMem r hr
            have hrec := ih
              { store := (updateProgress ((updateProgress mres.1 guildId
                  ("room_deleted_" ++ room.id) {} now).1) guildId
                  ("room_processed_" ++ room.id)
                  { movedCount := some mres.2.2.1 } now).1
                env := deleteChannel mres.2.1 room.id
                totalMoved := mres.2.2.2.1
                deletedRooms := s.deletedRooms + 1
                movesIssued := mres.2.2.2.2
                deletesIssued := s.deletesIssued ++ [room.id] }
              hstepsR henvR hkeys'.2 hnd'.2
              (fun r hr => hmain r (by simp [hr])) hdisj'.2
            rw [hrec.1, hrec.2]
            simp only [List.map_cons, List.sum_cons, roomMovedContribution,
              roomDeletedContribution, hproc, hcache, hdel0', hdok, hcnt.1, hcnt.2,
              hfiltereq, Bool.false_eq_true, if_false, if_true]
            omega
          · rw [if_neg hdok]
            dsimp only
            have hstepsR : ∀ r ∈ rest, ∀ k ∈ roomStepKeys env0 r,
                alookup k (getCompletedSteps ((updateProgress mres.1 guildId
                  ("room_processed_" ++ room.id)
                  { movedCount := some mres.2.2.1 } now).1) guildId) =
                  alookup k (getCompletedSteps st0 guildId) := by
              intro r hr k hk
              have hkne : ¬ k = "room_processed_" ++ room.id := by
                intro he
                exact hkeys'.1 r hr _ hkproc (he ▸ hk)
              rw [getCompletedSteps_updateProgress_lookup_ne _ _ _ _ _ _ hkne]
              exact hstepsMem r hr k hk
            have hrec := ih
              { store := (updateProgress mres.1 guildId ("room_processed_" ++ room.id)
                  { movedCount := some mres.2.2.1 } now).1
                env := mres.2.1
                totalMoved := mres.2.2.2.1
                deletedRooms := s.deletedRooms
                movesIssued := mres.2.2.2.2
                deletesIssued := s.deletesIssued ++ [room.id] }
              hstepsR henvMem hkeys'.2 hnd'.2
              (fun r hr => hmain r (by simp [hr])) hdisj'.2
            rw [hrec.1, hrec.2]
            simp only [List.map_cons, List.sum_cons, roomMovedContribution,
              roomDeletedContribution, hproc, hcache, hdel0', hdok, hcnt.1, hcnt.2,
              hfiltereq, Bool.false_eq_true, if_false]
            omega

/-- C9 (amended): the moved and deleted counts in the end executor's
success message are cumulative by the stated mechanism — each room whose
`room_processed` step is already recorded contributes its persisted
`movedCount` payload and counts as deleted, while a newly processed room
contributes its live counts (recorded per-member moves plus fresh
successful moves; deleted when its delete step is recorded or its fresh
delete succeeds) — all computed against the pre-invocation store and
channel cache, provided the rooms are distinct, none is the main channel,
and no member occupies two rooms at once. -/
theorem C9_end_totals_cumulative (st : Store) (ss : Sessions) (env : GuildEnv)
    (mainChannel : Channel) (breakoutRooms : List Channel)
    (moveOk deleteOk : String → Bool) (now : Nat)
    (hkeys : List.Pairwise
      (fun r1 r2 => ∀ k ∈ roomStepKeys env r1, k ∉ roomStepKeys env r2) breakoutRooms)
    (hnd : (breakoutRooms.map (·.id)).Nodup)
    (hmain : ∀ r ∈ breakoutRooms, ¬ r.id = mainChannel.id)
    (hdisj : List.Pairwise
      (fun r1 r2 => ∀ m ∈ liveMembers env r1, m ∉ liveMembers env r2) breakoutRooms) :
    (endBody st ss env mainChannel breakoutRooms moveOk deleteOk now).result =
      { success := true
        message := endSuccessMessage
          ((breakoutRooms.map (roomMovedContribution
            (getCompletedSteps st env.guildId) env moveOk)).sum)
          ((breakoutRooms.map (roomDeletedContribution
            (getCompletedSteps st env.guildId) env deleteOk)).sum)
          breakoutRooms.length mainChannel.name } := by
  have h := endRoomLoop_totals env.guildId now moveOk deleteOk mainChannel st env
    breakoutRooms
    { store := st, env := env, totalMoved := 0, deletedRooms := 0
      movesIssued := [], deletesIssued := [] }
    (fun r _ k _ => rfl) (fun r _ => rfl) hkeys hnd hmain hdisj
  simp only [endBody]
  rw [h.1, h.2]
  simp

/-- Concrete check of the amended C9 theorem: on resume after `R1` was
fully processed (persisted `movedCount` 2), ending `R1` and the live room
`R2` (one member, fresh move and delete succeed) reports 3 moved and 2/2
deleted. -/
theorem C9_end_totals_cumulative_witness :
    (endBody c9AmStore [] c9AmEnv c9MainChannel c9AmRooms (fun _ => true)
        (fun _ => true) 9).result =
      { success := true, message := endSuccessMessage 3 2 2 "main" } := by
  have h := C9_end_totals_cumulative c9AmStore [] c9AmEnv c9MainChannel c9AmRooms
    (fun _ => true) (fun _ => true) 9 (by decide) (by decide) (by decide) (by decide)
  rw [h]
  rfl

end Britzone
